import Mathlib

/-!
# Twinkie PD snooper: capture ring, packet assembler and measurements

A shallow embedding of `samples/boards/google_pda/src/model.c` and
`samples/boards/google_pda/src/meas.c`.

* C arrays are total functions on `Nat` indices; only the indices inside the
  declared bounds are meaningful, and every write below is restricted to the
  bytes the C statement covers.
* Fixed-width unsigned fields are `Nat` with an explicit reduction where the C
  assignment truncates; `int`/`int32_t` values are `Int`.
* Hardware registers, the ADC, the UART and the devicetree constants are
  inputs of the functions that read them.
-/

namespace Snooper

/-! ## Constants of model.c -/

def MOD_BUFFERS : Nat := 40
def PACKET_HEADER_LEN : Nat := 20
def PD_SAMPLES : Nat := 488
def CRC_LEN : Nat := 4
def PACKET_BYTE_SIZE : Nat := PACKET_HEADER_LEN + PD_SAMPLES + CRC_LEN
def CC_VOLTAGE_LOW : Int := 500
def CC_VOLTAGE_HIGH : Int := 2000

/-- The two channel masks declared in `mask.h`; their values are parameters of
every function that uses them. -/
structure mask_h where
  CC1_CHANNEL_BIT : Nat
  CC2_CHANNEL_BIT : Nat

/-- Argument of `LL_UCPD_SetCCPin`. -/
inductive ccpin_t where
  | LL_UCPD_CCPIN_CC1
  | LL_UCPD_CCPIN_CC2
deriving DecidableEq

/-! ## Data model -/

/-- `struct packet_type_t`: six bit-fields sharing one `uint16_t`
(`unused1:4, polarity:2, lost:1, partial:1, version:4, type:4`). The field
`partial` is spelled `partial_bit` here. -/
structure packet_type_t where
  unused1 : Nat
  polarity : Nat
  lost : Nat
  partial_bit : Nat
  version : Nat
  type : Nat
deriving DecidableEq

/-- The all-zero tag, what `memset(&sop[i], 0, sizeof(uint16_t))` leaves. -/
def packet_type_zero : packet_type_t :=
  { unused1 := 0, polarity := 0, lost := 0, partial_bit := 0, version := 0, type := 0 }

/-- `struct header_t`. -/
structure header_t where
  sequence : Nat
  cc1_voltage : Nat
  cc2_voltage : Nat
  vcon_current : Nat
  vbus_voltage : Nat
  vbus_current : Nat
  packet_type : packet_type_t
  data_len : Nat
  unused : Nat

/-- `struct packet_t`. -/
structure packet_t where
  header : header_t
  data : Nat → Nat
  crc : Nat

/-- `struct model_t` (without the device and thread handles), followed by the
other state the functions of model.c read and write: the file-level
`pd_line`, the locals of `model_thread` that live across loop iterations, the
snoop and connection masks kept by view.c, the CC pin selected in the UCPD
peripheral and the number of `k_wakeup` calls made so far. -/
structure model_t where
  packet : packet_t
  dma_buffer : Nat → Nat
  start : Bool
  empty_print : Bool
  slow_print : Bool
  auto_stop : Bool
  mod_buff : Nat → Nat → Nat
  mod_size : Nat → Nat
  sop : Nat → packet_type_t
  mw : Nat
  mr : Nat
  sleep_time : Nat
  pd_line : Int
  vbus_v : Int
  vbus_c : Int
  vcon_c : Int
  cc1_v : Int
  cc2_v : Int
  view_snoop : Nat
  view_connection : Nat
  ucpd_ccpin : ccpin_t
  wakeups : Nat

/-- Zero-initialised static storage, the state before `model_init`. -/
def model_zero : model_t :=
  { packet :=
      { header :=
          { sequence := 0, cc1_voltage := 0, cc2_voltage := 0, vcon_current := 0,
            vbus_voltage := 0, vbus_current := 0, packet_type := packet_type_zero,
            data_len := 0, unused := 0 },
        data := fun _ => 0, crc := 0 },
    dma_buffer := fun _ => 0,
    start := false, empty_print := false, slow_print := false, auto_stop := false,
    mod_buff := fun _ _ => 0, mod_size := fun _ => 0, sop := fun _ => packet_type_zero,
    mw := 0, mr := 0, sleep_time := 0, pd_line := 0,
    vbus_v := 0, vbus_c := 0, vcon_c := 0, cc1_v := 0, cc2_v := 0,
    view_snoop := 0, view_connection := 0,
    ucpd_ccpin := ccpin_t.LL_UCPD_CCPIN_CC1, wakeups := 0 }

/-! ## Control surface -/

/-- `model.packet.header.sequence = v`. -/
def set_sequence (v : Nat) (m : model_t) : model_t :=
  { m with packet := { m.packet with header := { m.packet.header with sequence := v } } }

/-- `start_snooper` (model.c:102). -/
def start_snooper (k : mask_h) (s : Bool) (m : model_t) : model_t :=
  let m1 := { m with start := s }
  if s then
    { set_sequence 0 m1 with view_snoop := k.CC1_CHANNEL_BIT ||| k.CC2_CHANNEL_BIT }
  else
    { m1 with view_snoop := 0 }

/-- `reset_snooper` (model.c:113). The three `memset`s cover the 40 slots of
`mod_buff`, `mod_size` and `sop` exactly (`sizeof(struct packet_type_t)` is
`sizeof(uint16_t)`). -/
def reset_snooper (m : model_t) : model_t :=
  set_sequence 0
    { m with
      mod_buff := fun i j => if i < MOD_BUFFERS ∧ j < PD_SAMPLES then 0 else m.mod_buff i j,
      mod_size := fun i => if i < MOD_BUFFERS then 0 else m.mod_size i,
      sop := fun i => if i < MOD_BUFFERS then packet_type_zero else m.sop i,
      mr := 0,
      mw := 0 }

/-- `set_empty_print` (model.c:155). -/
def set_empty_print (e : Bool) (m : model_t) : model_t := { m with empty_print := e }

/-- `set_sleep_time` (model.c:159); the argument is a `uint32_t`. -/
def set_sleep_time (st : Nat) (m : model_t) : model_t := { m with sleep_time := st % 2 ^ 32 }

/-- `set_auto_stop` (model.c:163). -/
def set_auto_stop (s : Bool) (m : model_t) : model_t := { m with auto_stop := s }

/-- `cmd_output` (shell.c:174): the dictionary entry `cont` carries `true`,
`pd_only` carries `false`. -/
def cmd_output (data : Bool) (m : model_t) : model_t := set_empty_print data m

/-! ## Capture producer -/

/-- `x++` on a `uint8_t` ring index followed by the wrap test
`if (x == MOD_BUFFERS) x = 0`. -/
def ring_next (x : Nat) : Nat :=
  let y := (x + 1) % 256
  if y = MOD_BUFFERS then 0 else y

/-- What the UCPD peripheral presents to one run of `ucpd_isr`: the two
status flags the handler acts on and the two registers it reads. -/
structure ucpd_hw where
  RxErr : Bool
  RxMsgEnd : Bool
  RxPaySize : Nat
  RxOrderSet : Nat

/-- The body shared by the two branches of `ucpd_isr` (model.c:285-296 with
`err = true`, model.c:302-313 with `err = false`), without the wake-up. -/
def isr_store (err : Bool) (paysize ordset : Nat) (m : model_t) : model_t :=
  let buff : Nat → Nat → Nat :=
    fun i j => if i = m.mw ∧ j < PD_SAMPLES then m.dma_buffer j else m.mod_buff i j
  let dma : Nat → Nat := fun j => if j < PD_SAMPLES then 0 else m.dma_buffer j
  let size := Function.update m.mod_size m.mw (paysize % 65536)
  let sop1 := Function.update m.sop m.mr { m.sop m.mr with type := ordset % 16 }
  let sop2 := Function.update sop1 m.mw { sop1 m.mw with polarity := (m.pd_line % 4).toNat }
  let sop3 := Function.update sop2 m.mw { sop2 m.mw with partial_bit := if err then 1 else 0 }
  { m with mod_buff := buff, dma_buffer := dma, mod_size := size, sop := sop3,
           mw := ring_next m.mw }

/-- `ucpd_isr` (model.c:274). The Type-C event flags are only cleared. The
receive-error branch ends with `k_wakeup`; in the message-end branch that call
is commented out. -/
def ucpd_isr (hw : ucpd_hw) (m : model_t) : model_t :=
  let m1 :=
    if hw.RxErr then
      let a := isr_store true hw.RxPaySize hw.RxOrderSet m
      { a with wakeups := a.wakeups + 1 }
    else m
  if hw.RxMsgEnd then isr_store false hw.RxPaySize hw.RxOrderSet m1 else m1

/-- One received capture as the producer sees it: the bytes the DMA channel
left in `dma_buffer`, the payload size and ordered-set registers, and which of
the two interrupt conditions is raised. -/
structure rx_event where
  dma : Nat → Nat
  paysize : Nat
  ordset : Nat
  err : Bool

/-- The DMA channel fills `dma_buffer`, then `ucpd_isr` runs with exactly one of
the two receive flags raised. -/
def receive (e : rx_event) (m : model_t) : model_t :=
  ucpd_isr { RxErr := e.err, RxMsgEnd := !e.err, RxPaySize := e.paysize, RxOrderSet := e.ordset }
    { m with dma_buffer := e.dma }

/-- A sequence of captures handled one after the other, oldest first. -/
def receive_all (es : List rx_event) (m : model_t) : model_t :=
  es.foldl (fun s e => receive e s) m

/-! ## Consumer: taking from the ring -/

/-- The take of `model_thread` (model.c:226-237). The `memcpy` moves
`mod_size[mr]` bytes; source and destination both hold `PD_SAMPLES` bytes, and
the definition follows the statement when that length is at most `PD_SAMPLES`.
With a larger length the C statement runs past `packet.data` over the members
declared after it (`crc`, `dma_buffer`, `tid`, then the flags `start`,
`empty_print`, `slow_print`, `auto_stop`), which this definition leaves as
they were; what is stated below about those members after a take is stated for
lengths of at most `PD_SAMPLES`. The header, the first `PD_SAMPLES` payload
bytes and the ring indices are outside the overrun of any length the 10-bit
payload size register can hold. -/
def ring_take (m : model_t) : model_t :=
  if m.mw ≠ m.mr then
    let n := m.mod_size m.mr
    let hdr := { m.packet.header with packet_type := m.sop m.mr, data_len := n }
    let data : Nat → Nat := fun j => if j < n then m.mod_buff m.mr j else m.packet.data j
    { m with
      packet := { m.packet with header := hdr, data := data },
      sop := Function.update m.sop m.mr packet_type_zero,
      mod_size := Function.update m.mod_size m.mr 0,
      mod_buff := fun i j => if i = m.mr ∧ j < PD_SAMPLES then 0 else m.mod_buff i j,
      mr := ring_next m.mr }
  else m

/-! ## Packet image -/

/-- Little-endian bytes of a `uint16_t`. -/
def le16 (x : Nat) : List Nat := [x % 256, x / 256 % 256]

/-- Little-endian bytes of a `uint32_t`. -/
def le32 (x : Nat) : List Nat :=
  [x % 256, x / 256 % 256, x / 65536 % 256, x / 16777216 % 256]

/-- The `uint16_t` holding the bit-fields of `struct packet_type_t`, first
declared field in the least significant bits (the layout of the ARM EABI the
board is built for). -/
def packet_type_bits (t : packet_type_t) : Nat :=
  t.unused1 % 16 + 16 * (t.polarity % 4) + 64 * (t.lost % 2) + 128 * (t.partial_bit % 2)
    + 256 * (t.version % 16) + 4096 * (t.type % 16)

/-- The 20 bytes of `struct header_t` in declaration order. -/
def header_bytes (h : header_t) : List Nat :=
  le32 h.sequence ++ le16 h.cc1_voltage ++ le16 h.cc2_voltage ++ le16 h.vcon_current
    ++ le16 h.vbus_voltage ++ le16 h.vbus_current ++ le16 (packet_type_bits h.packet_type)
    ++ le16 h.data_len ++ le16 h.unused

/-- The 488 bytes of `packet.data`. -/
def data_bytes (d : Nat → Nat) : List Nat := (List.range PD_SAMPLES).map d

/-- The 512 bytes at `(uint8_t *)&sm->packet`. -/
def packet_bytes (p : packet_t) : List Nat :=
  header_bytes p.header ++ data_bytes p.data ++ le32 p.crc

/-- The integrity coder declared in `crc32.h`, a parameter of the consumer: a
running state, reset by `crc32_init`, folded over a byte span by `crc32_hash`,
read by `crc32_result`. -/
structure crc32_h where
  σ : Type
  crc32_init : σ
  crc32_hash : σ → List Nat → σ
  crc32_result : σ → Nat

/-- Lines model.c:239-241: `crc32_init(); crc32_hash((uint8_t *)&sm->packet, 508);`
then `crc32_result()` stored in the `uint32_t` field `crc`. -/
def packet_crc (c : crc32_h) (p : packet_t) : Nat :=
  c.crc32_result (c.crc32_hash c.crc32_init ((packet_bytes p).take 508)) % 2 ^ 32

/-! ## Measurements (meas.c) -/

/-- What the ADC driver does during one measurement: the return value of
`adc_read`, the content of `sample_buffer` after it, and
`adc_raw_to_millivolts_dt` as a function of the value it finds in `*v`, giving
its return value and the value it leaves in `*v`. -/
structure adc_chan where
  read_ret : Int
  sample : Int
  raw_to_millivolts : Int → Int × Int

/-- Devicetree properties used by meas.c, and the `double` product
`*v * 1.22` converted back to `int32_t`. -/
structure dt_props where
  mul_1_22 : Int → Int
  vbus_full_ohms : Int
  vbus_output_ohms : Int
  vbus_c_vref_mv : Int
  vbus_c_shunt_resistor_mohms : Int
  vbus_c_gain : Int
  vcon_shunt_resistor_mohms : Int
  vcon_gain : Int

/-- `meas_vbus_v` (meas.c:25): return value and the content of `*v` on return,
from the content `v` of `*v` on entry. -/
def meas_vbus_v (dt : dt_props) (a : adc_chan) (v : Int) : Int × Int :=
  if a.read_ret ≠ 0 then (a.read_ret, v)
  else
    let r := a.raw_to_millivolts a.sample
    if r.1 ≠ 0 then (r.1, r.2)
    else (0, Int.tdiv (dt.mul_1_22 r.2 * dt.vbus_full_ohms) dt.vbus_output_ohms)

/-- `meas_vbus_c` (meas.c:57). -/
def meas_vbus_c (dt : dt_props) (a : adc_chan) (c : Int) : Int × Int :=
  if a.read_ret ≠ 0 then (a.read_ret, c)
  else
    let r := a.raw_to_millivolts a.sample
    if r.1 ≠ 0 then (r.1, r.2)
    else
      (0, Int.tdiv (Int.tdiv ((r.2 - Int.tdiv dt.vbus_c_vref_mv 2) * 1000)
        dt.vbus_c_shunt_resistor_mohms) dt.vbus_c_gain)

/-- `meas_cc1_v` (meas.c:91). -/
def meas_cc1_v (a : adc_chan) (v : Int) : Int × Int :=
  if a.read_ret ≠ 0 then (a.read_ret, v)
  else
    let r := a.raw_to_millivolts a.sample
    if r.1 ≠ 0 then (r.1, r.2)
    else (0, r.2)

/-- `meas_cc2_v` (meas.c:122). -/
def meas_cc2_v (a : adc_chan) (v : Int) : Int × Int :=
  if a.read_ret ≠ 0 then (a.read_ret, v)
  else
    let r := a.raw_to_millivolts a.sample
    if r.1 ≠ 0 then (r.1, r.2)
    else (0, r.2)

/-- `meas_vcon_c` (meas.c:153). -/
def meas_vcon_c (dt : dt_props) (a : adc_chan) (c : Int) : Int × Int :=
  if a.read_ret ≠ 0 then (a.read_ret, c)
  else
    let r := a.raw_to_millivolts a.sample
    if r.1 ≠ 0 then (r.1, r.2)
    else (0, Int.tdiv (Int.tdiv (r.2 * 1000) dt.vcon_shunt_resistor_mohms) dt.vcon_gain)

/-! ## Consumer: one iteration of `model_thread` -/

/-- The surroundings of one loop iteration: the five ADC channels and the
UART. `uart_fifo_fill n size` is the return value of the `n`-th call (counted
from 0 within the iteration) when `size` bytes are offered. -/
structure cycle_env where
  adc_vbus_v : adc_chan
  adc_vbus_c : adc_chan
  adc_cc1_v : adc_chan
  adc_cc2_v : adc_chan
  adc_vcon_c : adc_chan
  uart_fifo_fill : Nat → Int → Int

/-- The telemetry refresh and line detection of model.c:182-216; the return
values of the five measurement calls are discarded as in the source. -/
def telemetry (k : mask_h) (dt : dt_props) (env : cycle_env) (m : model_t) : model_t :=
  let vbus_v := (meas_vbus_v dt env.adc_vbus_v m.vbus_v).2
  let vbus_c := (meas_vbus_c dt env.adc_vbus_c m.vbus_c).2
  let cc1_v := (meas_cc1_v env.adc_cc1_v m.cc1_v).2
  let cc2_v := (meas_cc2_v env.adc_cc2_v m.cc2_v).2
  let vcon_c := (meas_vcon_c dt env.adc_vcon_c m.vcon_c).2
  let m1 := { m with vbus_v := vbus_v, vbus_c := vbus_c, cc1_v := cc1_v, cc2_v := cc2_v,
                     vcon_c := vcon_c }
  if cc1_v < CC_VOLTAGE_HIGH ∧ cc1_v > CC_VOLTAGE_LOW then
    { m1 with
      ucpd_ccpin :=
        if m1.view_snoop &&& k.CC1_CHANNEL_BIT ≠ 0 then ccpin_t.LL_UCPD_CCPIN_CC1
        else ccpin_t.LL_UCPD_CCPIN_CC2,
      view_connection := k.CC1_CHANNEL_BIT,
      pd_line := 1 }
  else if cc2_v < CC_VOLTAGE_HIGH ∧ cc2_v > CC_VOLTAGE_LOW then
    { m1 with
      ucpd_ccpin :=
        if m1.view_snoop &&& k.CC2_CHANNEL_BIT ≠ 0 then ccpin_t.LL_UCPD_CCPIN_CC2
        else ccpin_t.LL_UCPD_CCPIN_CC1,
      view_connection := k.CC2_CHANNEL_BIT,
      pd_line := 2 }
  else
    { m1 with view_connection := 0 }

/-- An `int32_t` stored into a `uint16_t` header field. -/
def to_u16 (v : Int) : Nat := (v % 65536).toNat

/-- Lines model.c:219-223. -/
def header_telemetry (m : model_t) : model_t :=
  { m with packet := { m.packet with header :=
      { m.packet.header with
        vbus_voltage := to_u16 m.vbus_v,
        vbus_current := to_u16 m.vbus_c,
        cc1_voltage := to_u16 m.cc1_v,
        cc2_voltage := to_u16 m.cc2_v,
        vcon_current := to_u16 m.vcon_c } } }

/-- Lines model.c:239-241. -/
def store_crc (c : crc32_h) (m : model_t) : model_t :=
  { m with packet := { m.packet with crc := packet_crc c m.packet } }

/-- Lines model.c:258-259. -/
def packet_clear (m : model_t) : model_t :=
  { m with packet :=
      { m.packet with
        header := { m.packet.header with data_len := 0 },
        data := fun j => if j < PD_SAMPLES then 0 else m.packet.data j } }

/-- How the write loop of model.c:244-256 stands: left through its condition,
left through `break`, or still running when the step budget is used up. -/
inductive tx_status where
  | done
  | aborted
  | pending
deriving DecidableEq

/-- Record of a run of the write loop: the number of `uart_fifo_fill` calls,
the value of `stop_timer`, the final value of `i`, and the bytes the UART
accepted, in order. -/
structure tx_result where
  status : tx_status
  calls : Nat
  stop_timer : Nat
  pos : Int
  sent : List Nat

/-- Byte at offset `i` of a packet image. -/
def image_byte (img : List Nat) (i : Int) : Nat :=
  if 0 ≤ i then img.getD i.toNat 0 else 0

/-- The `w` bytes starting at offset `i` of a packet image. -/
def image_chunk (img : List Nat) (i w : Int) : List Nat :=
  (List.range w.toNat).map (fun (j : Nat) => image_byte img (i + (j : Int)))

/-- The write loop of model.c:244-256 over the packet image `img`, run for at
most `fuel` calls of `uart_fifo_fill`, from loop variable `i`, with `calls`
calls made and `stop_timer` as given. `start_snooper(false)` on the `break`
path is applied by the caller. -/
def tx_loop (uart : Nat → Int → Int) (auto_stop : Bool) (img : List Nat) :
    Nat → Nat → Int → Nat → List Nat → tx_result
  | 0, calls, i, stop_timer, sent =>
    { status := if i < PACKET_BYTE_SIZE then tx_status.pending else tx_status.done,
      calls := calls, stop_timer := stop_timer, pos := i, sent := sent }
  | fuel + 1, calls, i, stop_timer, sent =>
    if i < PACKET_BYTE_SIZE then
      let w := uart calls (PACKET_BYTE_SIZE - i)
      if w ≤ 0 then
        if stop_timer + 1 > 100 ∧ auto_stop = true then
          { status := tx_status.aborted, calls := calls + 1, stop_timer := stop_timer + 1,
            pos := i, sent := sent }
        else
          tx_loop uart auto_stop img fuel (calls + 1) (i + w) (stop_timer + 1) sent
      else
        tx_loop uart auto_stop img fuel (calls + 1) (i + w) stop_timer
          (sent ++ image_chunk img i w)
    else
      { status := tx_status.done, calls := calls, stop_timer := stop_timer, pos := i,
        sent := sent }

/-- What one iteration of the `while (1)` loop of `model_thread` did: the
state it leaves, whether the ring was taken from, the packet as it stood after
the integrity code was stored (on iterations that assemble one), and the
record of the write loop (on iterations that enter it). When the write loop is
still pending, `m` is the state inside the loop. -/
structure cycle_out where
  m : model_t
  took : Bool
  assembled : Option packet_t
  tx : Option tx_result

/-- Lines model.c:179-217: the sequence number is incremented (a `uint32_t`)
and, when it is a multiple of 10, telemetry is refreshed. -/
def cycle_head (k : mask_h) (dt : dt_props) (env : cycle_env) (m : model_t) : model_t :=
  let m1 := set_sequence ((m.packet.header.sequence + 1) % 2 ^ 32) m
  if m1.packet.header.sequence % 10 = 0 then telemetry k dt env m1 else m1

/-- Lines model.c:219-241: header telemetry, the take, the integrity code. -/
def assemble (c : crc32_h) (m : model_t) : model_t :=
  store_crc c (ring_take (header_telemetry m))

/-- What follows the write loop: `start_snooper(false)` when it was left
through `break`, then lines model.c:258-259. Nothing when the loop is still
running. -/
def tx_finish (k : mask_h) (st : tx_status) (m : model_t) : model_t :=
  match st with
  | tx_status.done => packet_clear m
  | tx_status.aborted => packet_clear (start_snooper k false m)
  | tx_status.pending => m

/-- One iteration of the `while (1)` loop of `model_thread` (model.c:178-265),
the write loop being given `fuel` calls. The final `k_usleep` only passes
time. -/
def model_thread_cycle (k : mask_h) (dt : dt_props) (c : crc32_h) (env : cycle_env)
    (fuel : Nat) (m : model_t) : cycle_out :=
  if m.start = true then
    let m2 := cycle_head k dt env m
    if m2.packet.header.sequence % 10 < 8 then
      let m5 := assemble c m2
      if m5.empty_print = true ∨ m5.packet.header.data_len ≠ 0 then
        let r := tx_loop env.uart_fifo_fill m5.auto_stop (packet_bytes m5.packet) fuel 0 0 0 []
        { m := tx_finish k r.status m5, took := decide (m2.mw ≠ m2.mr),
          assembled := some m5.packet, tx := some r }
      else
        { m := packet_clear m5, took := decide (m2.mw ≠ m2.mr), assembled := some m5.packet,
          tx := none }
    else
      { m := m2, took := false, assembled := none, tx := none }
  else
    { m := m, took := false, assembled := none, tx := none }

/-- Whether the iteration ran to its end within the budget. -/
def cycle_out.finished (o : cycle_out) : Bool :=
  match o.tx with
  | some r => decide (r.status ≠ tx_status.pending)
  | none => true

/-- Consecutive iterations of `model_thread` with no interrupt in between;
`env i` is the surroundings of the `i`-th one. The result lists what each
iteration did, oldest first, and is `none` when one of them is still in its
write loop after `fuel` calls. -/
def run_cycles (k : mask_h) (dt : dt_props) (c : crc32_h) (env : Nat → cycle_env)
    (fuel : Nat) : Nat → Nat → model_t → Option (List cycle_out)
  | 0, _, _ => some []
  | n + 1, i, m =>
    let o := model_thread_cycle k dt c (env i) fuel m
    if o.finished = true then
      (run_cycles k dt c env fuel n (i + 1) o.m).map (fun os => o :: os)
    else none

/-- `model_init` (model.c:354) as far as it touches the state above;
`ucpd_init_ok` says whether `LL_UCPD_Init` returned `SUCCESS`. Returns the
return value (`-EIO` is -5) and the state. -/
def model_init (k : mask_h) (ucpd_init_ok : Bool) (m : model_t) : Int × model_t :=
  let m1 := set_sequence 0 { m with mw := 0, mr := 0 }
  if ucpd_init_ok then
    (0, set_sleep_time 500 (set_empty_print true (set_auto_stop true (start_snooper k false m1))))
  else
    (-5, m1)

/-- Modelled from the spec: `view_set_snoop` of view.c, the select-line
operation of the control surface. It stores the requested line mask, the value
`get_view_snoop` returns to `model_thread`. The shell command `snoop 1` passes
`CC1_CHANNEL_BIT`, `snoop 2` passes `CC2_CHANNEL_BIT`. -/
def view_set_snoop (mask : Nat) (m : model_t) : model_t := { m with view_snoop := mask }

/-! ## Reachable states -/

/-- The states the snooper can be in between whole operations: zeroed storage
after `model_init`, then any interleaving of DMA writes into `dma_buffer`, runs
of `ucpd_isr`, iterations of `model_thread` that ran to their end, and calls of
the control surface. -/
inductive reachable (k : mask_h) (dt : dt_props) (c : crc32_h) : model_t → Prop
  | init (ok : Bool) : reachable k dt c (model_init k ok model_zero).2
  | dma (buf : Nat → Nat) (m : model_t) :
      reachable k dt c m → reachable k dt c { m with dma_buffer := buf }
  | isr (hw : ucpd_hw) (m : model_t) : reachable k dt c m → reachable k dt c (ucpd_isr hw m)
  | cycle (env : cycle_env) (fuel : Nat) (m : model_t) :
      reachable k dt c m → (model_thread_cycle k dt c env fuel m).finished = true →
      reachable k dt c (model_thread_cycle k dt c env fuel m).m
  | reset (m : model_t) : reachable k dt c m → reachable k dt c (reset_snooper m)
  | start (s : Bool) (m : model_t) : reachable k dt c m → reachable k dt c (start_snooper k s m)
  | empty_print (e : Bool) (m : model_t) :
      reachable k dt c m → reachable k dt c (set_empty_print e m)
  | auto_stop (s : Bool) (m : model_t) : reachable k dt c m → reachable k dt c (set_auto_stop s m)
  | sleep_time (st : Nat) (m : model_t) :
      reachable k dt c m → reachable k dt c (set_sleep_time st m)
  | snoop (mask : Nat) (m : model_t) :
      reachable k dt c m → reachable k dt c (view_set_snoop mask m)

/-- The states of `reachable` when every run of `ucpd_isr` finds in the payload
size register a value whose recorded length is at most `PD_SAMPLES`. -/
inductive reachable_capped (k : mask_h) (dt : dt_props) (c : crc32_h) : model_t → Prop
  | init (ok : Bool) : reachable_capped k dt c (model_init k ok model_zero).2
  | dma (buf : Nat → Nat) (m : model_t) :
      reachable_capped k dt c m → reachable_capped k dt c { m with dma_buffer := buf }
  | isr (hw : ucpd_hw) (m : model_t) :
      reachable_capped k dt c m → hw.RxPaySize % 65536 ≤ PD_SAMPLES →
      reachable_capped k dt c (ucpd_isr hw m)
  | cycle (env : cycle_env) (fuel : Nat) (m : model_t) :
      reachable_capped k dt c m → (model_thread_cycle k dt c env fuel m).finished = true →
      reachable_capped k dt c (model_thread_cycle k dt c env fuel m).m
  | reset (m : model_t) : reachable_capped k dt c m → reachable_capped k dt c (reset_snooper m)
  | start (s : Bool) (m : model_t) :
      reachable_capped k dt c m → reachable_capped k dt c (start_snooper k s m)
  | empty_print (e : Bool) (m : model_t) :
      reachable_capped k dt c m → reachable_capped k dt c (set_empty_print e m)
  | auto_stop (s : Bool) (m : model_t) :
      reachable_capped k dt c m → reachable_capped k dt c (set_auto_stop s m)
  | sleep_time (st : Nat) (m : model_t) :
      reachable_capped k dt c m → reachable_capped k dt c (set_sleep_time st m)
  | snoop (mask : Nat) (m : model_t) :
      reachable_capped k dt c m → reachable_capped k dt c (view_set_snoop mask m)

/-- The states met when the ring is followed from `model_init` or from
`reset_snooper`, either one applied to any prior state, through any
interleaving of DMA writes, runs of `ucpd_isr`, iterations of `model_thread`
(whether or not the write loop has been followed to its end) and calls of the
control surface. -/
inductive ring_run (k : mask_h) (dt : dt_props) (c : crc32_h) : model_t → Prop
  | init (ok : Bool) (m : model_t) : ring_run k dt c (model_init k ok m).2
  | reset (m : model_t) : ring_run k dt c (reset_snooper m)
  | dma (buf : Nat → Nat) (m : model_t) :
      ring_run k dt c m → ring_run k dt c { m with dma_buffer := buf }
  | isr (hw : ucpd_hw) (m : model_t) : ring_run k dt c m → ring_run k dt c (ucpd_isr hw m)
  | cycle (env : cycle_env) (fuel : Nat) (m : model_t) :
      ring_run k dt c m → ring_run k dt c (model_thread_cycle k dt c env fuel m).m
  | start (s : Bool) (m : model_t) : ring_run k dt c m → ring_run k dt c (start_snooper k s m)
  | empty_print (e : Bool) (m : model_t) :
      ring_run k dt c m → ring_run k dt c (set_empty_print e m)
  | auto_stop (s : Bool) (m : model_t) : ring_run k dt c m → ring_run k dt c (set_auto_stop s m)
  | sleep_time (st : Nat) (m : model_t) :
      ring_run k dt c m → ring_run k dt c (set_sleep_time st m)
  | snoop (mask : Nat) (m : model_t) :
      ring_run k dt c m → ring_run k dt c (view_set_snoop mask m)

/-- A receive-error capture used in the examples: payload size `n`, DMA bytes
`n, n+1, ...` (as bytes), ordered-set code `n % 8`. -/
def sample_error_event (n : Nat) : rx_event :=
  { dma := fun j => (n + j) % 256, paysize := n, ordset := n % 8, err := true }

/-! ## Specification predicates -/

/-- Slot `i` of the ring holds the capture `e` received while `pd_line` was
`line`: recorded length, the bytes of the DMA buffer, line and partial flag.
The ordered-set code is not part of this predicate. -/
def slot_holds (s : model_t) (i : Nat) (e : rx_event) (line : Int) : Prop :=
  s.mod_size i = e.paysize % 65536 ∧
  (∀ j, j < PD_SAMPLES → s.mod_buff i j = e.dma j) ∧
  (s.sop i).polarity = (line % 4).toNat ∧
  (s.sop i).partial_bit = (if e.err then 1 else 0)

/-- The packet carries the capture `e` received while `pd_line` was `line`:
payload length, the payload bytes below that length, line and partial flag.
The ordered-set code is not part of this predicate. -/
def packet_holds (p : packet_t) (e : rx_event) (line : Int) : Prop :=
  p.header.data_len = e.paysize % 65536 ∧
  (∀ j, j < e.paysize % 65536 → j < PD_SAMPLES → p.data j = e.dma j) ∧
  p.header.packet_type.polarity = (line % 4).toNat ∧
  p.header.packet_type.partial_bit = (if e.err then 1 else 0)

/-! ## Sample inputs -/

/-- A message-complete capture used in the examples: payload size `n`, DMA
bytes `n, n+1, ...` (as bytes), ordered-set code `n % 8`. -/
def sample_event (n : Nat) : rx_event :=
  { dma := fun j => (n + j) % 256, paysize := n, ordset := n % 8, err := false }

/-- The captures `sample_event 1, ..., sample_event n`, oldest first. -/
def sample_events (n : Nat) : List rx_event :=
  (List.range n).map (fun k => sample_event (k + 1))

/-- Sample channel masks for the examples (two distinct bits). -/
def sample_masks : mask_h := { CC1_CHANNEL_BIT := 4, CC2_CHANNEL_BIT := 8 }

/-- Sample devicetree properties for the examples. -/
def sample_dt : dt_props :=
  { mul_1_22 := fun v => Int.tdiv (v * 61) 50, vbus_full_ohms := 11, vbus_output_ohms := 1,
    vbus_c_vref_mv := 3300, vbus_c_shunt_resistor_mohms := 3, vbus_c_gain := 100,
    vcon_shunt_resistor_mohms := 10, vcon_gain := 25 }

/-- An ADC channel that reads `raw` and converts it to itself. -/
def adc_ok (raw : Int) : adc_chan :=
  { read_ret := 0, sample := raw, raw_to_millivolts := fun x => (0, x) }

/-- An ADC channel whose read succeeds with `raw` and whose conversion then
fails with `-ENOTSUP` (-134), leaving `*v` as it found it. -/
def adc_conv_fails (raw : Int) : adc_chan :=
  { read_ret := 0, sample := raw, raw_to_millivolts := fun x => (-134, x) }

/-- An ADC channel whose read fails with `-EIO` (-5). -/
def adc_read_fails : adc_chan :=
  { read_ret := -5, sample := 0, raw_to_millivolts := fun x => (0, x) }

/-- A stand-in integrity coder for the examples: the state is the sum of the
bytes seen. -/
def sample_crc : crc32_h :=
  { σ := Nat, crc32_init := 0, crc32_hash := fun s bs => s + bs.sum, crc32_result := fun s => s }

/-- Surroundings for the examples: line A reads `cc1`, line B reads `cc2`, the
other channels read 0, and the UART answers every call through `uart`. -/
def sample_env (cc1 cc2 : Int) (uart : Nat → Int → Int) : cycle_env :=
  { adc_vbus_v := adc_ok 0, adc_vbus_c := adc_ok 0, adc_cc1_v := adc_ok cc1,
    adc_cc2_v := adc_ok cc2, adc_vcon_c := adc_ok 0, uart_fifo_fill := uart }

/-- A UART that accepts everything it is offered. -/
def uart_accepts_all : Nat → Int → Int := fun _ size => size

/-- A UART that accepts nothing. -/
def uart_stalled : Nat → Int → Int := fun _ _ => 0

/-- The snooper after a successful `model_init` followed by
`start_snooper(true)`: empty ring, continuous output, auto-stop on. -/
def sample_booted : model_t :=
  start_snooper sample_masks true (model_init sample_masks true model_zero).2

/-- `sample_booted` with line A noted as the connected line. -/
def sample_running : model_t := { sample_booted with pd_line := 1 }

/-- `sample_running` after one message-complete capture of length 12. -/
def sample_loaded : model_t := receive (sample_event 12) sample_running

/-- The same surroundings on every iteration. -/
def sample_envs (cc1 cc2 : Int) (uart : Nat → Int → Int) : Nat → cycle_env :=
  fun _ => sample_env cc1 cc2 uart

/-! # Theorems -/

/-! ## Supporting lemmas -/

theorem telemetry_vbus_v (k : mask_h) (dt : dt_props) (env : cycle_env) (m : model_t) :
    (telemetry k dt env m).vbus_v = (meas_vbus_v dt env.adc_vbus_v m.vbus_v).2 := by
  simp only [telemetry]; split_ifs <;> rfl

theorem telemetry_vbus_c (k : mask_h) (dt : dt_props) (env : cycle_env) (m : model_t) :
    (telemetry k dt env m).vbus_c = (meas_vbus_c dt env.adc_vbus_c m.vbus_c).2 := by
  simp only [telemetry]; split_ifs <;> rfl

theorem telemetry_cc1_v (k : mask_h) (dt : dt_props) (env : cycle_env) (m : model_t) :
    (telemetry k dt env m).cc1_v = (meas_cc1_v env.adc_cc1_v m.cc1_v).2 := by
  simp only [telemetry]; split_ifs <;> rfl

theorem telemetry_cc2_v (k : mask_h) (dt : dt_props) (env : cycle_env) (m : model_t) :
    (telemetry k dt env m).cc2_v = (meas_cc2_v env.adc_cc2_v m.cc2_v).2 := by
  simp only [telemetry]; split_ifs <;> rfl

theorem telemetry_vcon_c (k : mask_h) (dt : dt_props) (env : cycle_env) (m : model_t) :
    (telemetry k dt env m).vcon_c = (meas_vcon_c dt env.adc_vcon_c m.vcon_c).2 := by
  simp only [telemetry]; split_ifs <;> rfl

@[simp] theorem telemetry_packet (k : mask_h) (dt : dt_props) (env : cycle_env) (m : model_t) :
    (telemetry k dt env m).packet = m.packet := by
  simp only [telemetry]; split_ifs <;> rfl

@[simp] theorem telemetry_mw (k : mask_h) (dt : dt_props) (env : cycle_env) (m : model_t) :
    (telemetry k dt env m).mw = m.mw := by
  simp only [telemetry]; split_ifs <;> rfl

@[simp] theorem telemetry_mr (k : mask_h) (dt : dt_props) (env : cycle_env) (m : model_t) :
    (telemetry k dt env m).mr = m.mr := by
  simp only [telemetry]; split_ifs <;> rfl

@[simp] theorem telemetry_mod_buff (k : mask_h) (dt : dt_props) (env : cycle_env)
    (m : model_t) : (telemetry k dt env m).mod_buff = m.mod_buff := by
  simp only [telemetry]; split_ifs <;> rfl

@[simp] theorem telemetry_mod_size (k : mask_h) (dt : dt_props) (env : cycle_env)
    (m : model_t) : (telemetry k dt env m).mod_size = m.mod_size := by
  simp only [telemetry]; split_ifs <;> rfl

@[simp] theorem telemetry_sop (k : mask_h) (dt : dt_props) (env : cycle_env) (m : model_t) :
    (telemetry k dt env m).sop = m.sop := by
  simp only [telemetry]; split_ifs <;> rfl

@[simp] theorem telemetry_start (k : mask_h) (dt : dt_props) (env : cycle_env) (m : model_t) :
    (telemetry k dt env m).start = m.start := by
  simp only [telemetry]; split_ifs <;> rfl

@[simp] theorem telemetry_empty_print (k : mask_h) (dt : dt_props) (env : cycle_env)
    (m : model_t) : (telemetry k dt env m).empty_print = m.empty_print := by
  simp only [telemetry]; split_ifs <;> rfl

@[simp] theorem telemetry_auto_stop (k : mask_h) (dt : dt_props) (env : cycle_env)
    (m : model_t) : (telemetry k dt env m).auto_stop = m.auto_stop := by
  simp only [telemetry]; split_ifs <;> rfl

theorem ring_next_of_lt (x : Nat) (h : x < MOD_BUFFERS) : ring_next x = (x + 1) % MOD_BUFFERS := by
  unfold ring_next MOD_BUFFERS at *
  simp only
  split_ifs with h1 <;> omega

theorem ring_next_lt (x : Nat) (h : x < MOD_BUFFERS) : ring_next x < MOD_BUFFERS := by
  rw [ring_next_of_lt x h]
  exact Nat.mod_lt _ (by decide)

theorem receive_mr (e : rx_event) (m : model_t) : (receive e m).mr = m.mr := by
  cases h : e.err <;> simp [receive, ucpd_isr, isr_store, h]

theorem receive_mw (e : rx_event) (m : model_t) : (receive e m).mw = ring_next m.mw := by
  cases h : e.err <;> simp [receive, ucpd_isr, isr_store, h]

theorem receive_pd_line (e : rx_event) (m : model_t) : (receive e m).pd_line = m.pd_line := by
  cases h : e.err <;> simp [receive, ucpd_isr, isr_store, h]

theorem receive_packet (e : rx_event) (m : model_t) : (receive e m).packet = m.packet := by
  cases h : e.err <;> simp [receive, ucpd_isr, isr_store, h]

theorem receive_mod_size (e : rx_event) (m : model_t) (i : Nat) :
    (receive e m).mod_size i = if i = m.mw then e.paysize % 65536 else m.mod_size i := by
  cases h : e.err <;> simp [receive, ucpd_isr, isr_store, h, Function.update_apply]

theorem receive_mod_buff (e : rx_event) (m : model_t) (i j : Nat) :
    (receive e m).mod_buff i j
      = if i = m.mw ∧ j < PD_SAMPLES then e.dma j else m.mod_buff i j := by
  cases h : e.err <;> simp [receive, ucpd_isr, isr_store, h]

theorem receive_sop_polarity (e : rx_event) (m : model_t) (i : Nat) :
    ((receive e m).sop i).polarity
      = if i = m.mw then (m.pd_line % 4).toNat else (m.sop i).polarity := by
  by_cases h1 : i = m.mw <;> by_cases h2 : i = m.mr <;> by_cases h3 : m.mw = m.mr <;>
    cases h : e.err <;>
    simp [receive, ucpd_isr, isr_store, h, Function.update_apply, h1, h2, h3] <;> simp_all

theorem receive_sop_partial_bit (e : rx_event) (m : model_t) (i : Nat) :
    ((receive e m).sop i).partial_bit
      = if i = m.mw then (if e.err then 1 else 0) else (m.sop i).partial_bit := by
  by_cases h1 : i = m.mw <;> by_cases h2 : i = m.mr <;> by_cases h3 : m.mw = m.mr <;>
    cases h : e.err <;>
    simp [receive, ucpd_isr, isr_store, h, Function.update_apply, h1, h2, h3] <;> simp_all

theorem receive_sop_type (e : rx_event) (m : model_t) (i : Nat) :
    ((receive e m).sop i).type
      = if i = m.mr then e.ordset % 16 else (m.sop i).type := by
  by_cases h1 : i = m.mw <;> by_cases h2 : i = m.mr <;> by_cases h3 : m.mw = m.mr <;>
    cases h : e.err <;>
    simp [receive, ucpd_isr, isr_store, h, Function.update_apply, h1, h2, h3] <;> simp_all

theorem receive_all_snoc (l : List rx_event) (e : rx_event) (m : model_t) :
    receive_all (l ++ [e]) m = receive e (receive_all l m) := by
  simp [receive_all, List.foldl_append]

theorem receive_all_frame (es : List rx_event) (m : model_t) (h : m.mw < MOD_BUFFERS) :
    (receive_all es m).mw = (m.mw + es.length) % MOD_BUFFERS ∧
    (receive_all es m).mr = m.mr ∧
    (receive_all es m).pd_line = m.pd_line ∧
    (receive_all es m).packet = m.packet := by
  induction es using List.reverseRecOn with
  | nil => simp [receive_all, Nat.mod_eq_of_lt h]
  | append_singleton l e ih =>
    obtain ⟨h1, h2, h3, h4⟩ := ih
    rw [receive_all_snoc, receive_mw, receive_mr, receive_pd_line, receive_packet, h1, h2, h3, h4]
    refine ⟨?_, rfl, rfl, rfl⟩
    rw [ring_next_of_lt _ (Nat.mod_lt _ (by decide))]
    simp only [ MOD_BUFFERS, List.length_append, List.length_singleton]
    omega

theorem receive_all_slots (es : List rx_event) (m : model_t) (h : m.mw = 0) :
    ∀ k e, es[k]? = some e → es.length ≤ k + MOD_BUFFERS →
      slot_holds (receive_all es m) (k % MOD_BUFFERS) e m.pd_line := by
  induction es using List.reverseRecOn with
  | nil => intro k e hk; simp at hk
  | append_singleton l a ih =>
    intro k e hk hlen
    have hm : m.mw < MOD_BUFFERS := by rw [h]; decide
    obtain ⟨f1, -, f3, -⟩ := receive_all_frame l m hm
    rw [h, Nat.zero_add] at f1
    simp only [List.length_append, List.length_singleton] at hlen
    rw [receive_all_snoc]
    unfold slot_holds
    simp only [receive_mod_size, receive_mod_buff, receive_sop_polarity, receive_sop_partial_bit,
      f1, f3]
    by_cases hkl : k < l.length
    · have hne : k % MOD_BUFFERS ≠ l.length % MOD_BUFFERS := by
        simp only [ MOD_BUFFERS] at hlen ⊢
        omega
      rw [List.getElem?_append_left hkl] at hk
      have := ih k e hk (by omega)
      unfold slot_holds at this
      simpa [hne] using this
    · have hk' : k = l.length := by
        have : k < (l ++ [a]).length := by
          by_contra hc
          rw [List.getElem?_eq_none (by omega)] at hk
          exact absurd hk (by simp)
        simp at this
        omega
      subst hk'
      simp at hk
      subst hk
      exact ⟨by simp, fun j hj => by simp [hj], by simp, by simp⟩

theorem ring_take_mw (m : model_t) : (ring_take m).mw = m.mw := by
  unfold ring_take
  split_ifs <;> rfl

theorem ring_take_mr (m : model_t) (hne : m.mw ≠ m.mr) : (ring_take m).mr = ring_next m.mr := by
  simp only [ring_take, hne, ne_eq, not_false_eq_true, if_true]

theorem ring_take_mod_size (m : model_t) (hne : m.mw ≠ m.mr) (i : Nat) :
    (ring_take m).mod_size i = if i = m.mr then 0 else m.mod_size i := by
  simp only [ring_take, hne, ne_eq, not_false_eq_true, if_true, Function.update_apply]

theorem ring_take_sop (m : model_t) (hne : m.mw ≠ m.mr) (i : Nat) :
    (ring_take m).sop i = if i = m.mr then packet_type_zero else m.sop i := by
  simp only [ring_take, hne, ne_eq, not_false_eq_true, if_true, Function.update_apply]

theorem ring_take_mod_buff (m : model_t) (hne : m.mw ≠ m.mr) (i j : Nat) :
    (ring_take m).mod_buff i j = if i = m.mr ∧ j < PD_SAMPLES then 0 else m.mod_buff i j := by
  simp only [ring_take, hne, ne_eq, not_false_eq_true, if_true]

theorem ring_take_iterate_frame (s : model_t) (hle : s.mr ≤ s.mw) (hw : s.mw < MOD_BUFFERS) :
    ∀ t, t ≤ s.mw - s.mr →
      (ring_take^[t] s).mr = s.mr + t ∧ (ring_take^[t] s).mw = s.mw ∧
      ∀ i, s.mr + t ≤ i →
        (ring_take^[t] s).mod_size i = s.mod_size i ∧
        (ring_take^[t] s).sop i = s.sop i ∧
        (ring_take^[t] s).mod_buff i = s.mod_buff i := by
  intro t
  induction t with
  | zero => intro _; simp
  | succ t ih =>
    intro ht
    obtain ⟨h1, h2, h3⟩ := ih (by omega)
    rw [Function.iterate_succ_apply']
    have hne : (ring_take^[t] s).mw ≠ (ring_take^[t] s).mr := by omega
    have hr : (ring_take^[t] s).mr < MOD_BUFFERS := by omega
    refine ⟨?_, ?_, ?_⟩
    · rw [ring_take_mr _ hne, ring_next_of_lt _ hr, h1]
      simp only [ MOD_BUFFERS] at hw ⊢
      omega
    · rw [ring_take_mw, h2]
    · intro i hi
      have hi' : i ≠ (ring_take^[t] s).mr := by omega
      obtain ⟨g1, g2, g3⟩ := h3 i (by omega)
      refine ⟨?_, ?_, ?_⟩
      · rw [ring_take_mod_size _ hne, if_neg hi', g1]
      · rw [ring_take_sop _ hne, if_neg hi', g2]
      · funext j
        rw [ring_take_mod_buff _ hne, if_neg (fun hc => hi' hc.1), g3]

theorem ring_take_packet_holds (m : model_t) (e : rx_event) (line : Int)
    (hne : m.mw ≠ m.mr) (h : slot_holds m m.mr e line) :
    packet_holds (ring_take m).packet e line := by
  obtain ⟨h1, h2, h3, h4⟩ := h
  unfold packet_holds
  simp only [ring_take, hne, ne_eq, not_false_eq_true, if_true]
  refine ⟨h1, ?_, h3, h4⟩
  intro j hj hj'
  simp [h1, hj, h2 j hj']

theorem ring_take_empty (m : model_t) (h : m.mw = m.mr) : ring_take m = m := by
  simp [ring_take, h]

theorem puts_then_takes (m0 : model_t) (es : List rx_event) :
    (∀ t e, t < es.length % MOD_BUFFERS →
      es[es.length - es.length % MOD_BUFFERS + t]? = some e →
        (ring_take^[t] (receive_all es (reset_snooper m0))).mw
          ≠ (ring_take^[t] (receive_all es (reset_snooper m0))).mr ∧
        packet_holds (ring_take^[t + 1] (receive_all es (reset_snooper m0))).packet e
          m0.pd_line) ∧
    (ring_take^[es.length % MOD_BUFFERS] (receive_all es (reset_snooper m0))).mr
      = (ring_take^[es.length % MOD_BUFFERS] (receive_all es (reset_snooper m0))).mw := by
  have hr0 : (reset_snooper m0).mw = 0 := rfl
  have hr1 : (reset_snooper m0).mr = 0 := rfl
  have hr2 : (reset_snooper m0).pd_line = m0.pd_line := rfl
  obtain ⟨f1, f2, -, -⟩ := receive_all_frame es (reset_snooper m0) (by rw [hr0]; decide)
  rw [hr0, Nat.zero_add] at f1
  rw [hr1] at f2
  have hslots := receive_all_slots es (reset_snooper m0) hr0
  rw [hr2] at hslots
  generalize receive_all es (reset_snooper m0) = s at f1 f2 hslots
  have hq : es.length % MOD_BUFFERS < MOD_BUFFERS := Nat.mod_lt _ (by decide)
  have hframe := ring_take_iterate_frame s (by omega) (by omega)
  constructor
  · intro t e ht hk
    obtain ⟨g1, g2, g3⟩ := hframe t (by omega)
    have hne : (ring_take^[t] s).mw ≠ (ring_take^[t] s).mr := by omega
    refine ⟨hne, ?_⟩
    rw [Function.iterate_succ_apply']
    apply ring_take_packet_holds _ _ _ hne
    have hs := hslots _ e hk (by omega)
    have hmod : (es.length - es.length % MOD_BUFFERS + t) % MOD_BUFFERS = t := by
      simp only [ MOD_BUFFERS] at ht ⊢
      omega
    rw [hmod] at hs
    obtain ⟨k1, k2, k3⟩ := g3 t (by omega)
    have hmr : (ring_take^[t] s).mr = t := by omega
    unfold slot_holds at hs ⊢
    rw [hmr, k1, k2, k3]
    exact hs
  · obtain ⟨g1, g2, -⟩ := hframe (es.length % MOD_BUFFERS) (by omega)
    omega

theorem cycle_head_sequence (k : mask_h) (dt : dt_props) (env : cycle_env) (m : model_t) :
    (cycle_head k dt env m).packet.header.sequence = (m.packet.header.sequence + 1) % 2 ^ 32 := by
  simp only [cycle_head]; split_ifs <;> simp [set_sequence]

theorem cycle_head_data_len (k : mask_h) (dt : dt_props) (env : cycle_env) (m : model_t) :
    (cycle_head k dt env m).packet.header.data_len = m.packet.header.data_len := by
  simp only [cycle_head]; split_ifs <;> simp [set_sequence]

theorem cycle_head_data (k : mask_h) (dt : dt_props) (env : cycle_env) (m : model_t) :
    (cycle_head k dt env m).packet.data = m.packet.data := by
  simp only [cycle_head]; split_ifs <;> simp [set_sequence]

@[simp] theorem cycle_head_mw (k : mask_h) (dt : dt_props) (env : cycle_env) (m : model_t) :
    (cycle_head k dt env m).mw = m.mw := by
  simp only [cycle_head]; split_ifs <;> simp [set_sequence]

@[simp] theorem cycle_head_mr (k : mask_h) (dt : dt_props) (env : cycle_env) (m : model_t) :
    (cycle_head k dt env m).mr = m.mr := by
  simp only [cycle_head]; split_ifs <;> simp [set_sequence]

@[simp] theorem cycle_head_mod_buff (k : mask_h) (dt : dt_props) (env : cycle_env)
    (m : model_t) : (cycle_head k dt env m).mod_buff = m.mod_buff := by
  simp only [cycle_head]; split_ifs <;> simp [set_sequence]

@[simp] theorem cycle_head_mod_size (k : mask_h) (dt : dt_props) (env : cycle_env)
    (m : model_t) : (cycle_head k dt env m).mod_size = m.mod_size := by
  simp only [cycle_head]; split_ifs <;> simp [set_sequence]

@[simp] theorem cycle_head_sop (k : mask_h) (dt : dt_props) (env : cycle_env) (m : model_t) :
    (cycle_head k dt env m).sop = m.sop := by
  simp only [cycle_head]; split_ifs <;> simp [set_sequence]

@[simp] theorem cycle_head_start (k : mask_h) (dt : dt_props) (env : cycle_env) (m : model_t) :
    (cycle_head k dt env m).start = m.start := by
  simp only [cycle_head]; split_ifs <;> simp [set_sequence]

@[simp] theorem cycle_head_empty_print (k : mask_h) (dt : dt_props) (env : cycle_env)
    (m : model_t) : (cycle_head k dt env m).empty_print = m.empty_print := by
  simp only [cycle_head]; split_ifs <;> simp [set_sequence]

@[simp] theorem cycle_head_auto_stop (k : mask_h) (dt : dt_props) (env : cycle_env)
    (m : model_t) : (cycle_head k dt env m).auto_stop = m.auto_stop := by
  simp only [cycle_head]; split_ifs <;> simp [set_sequence]

@[simp] theorem assemble_mw (c : crc32_h) (m : model_t) : (assemble c m).mw = m.mw := by
  simp only [assemble, store_crc]
  rw [ring_take_mw]
  rfl

@[simp] theorem assemble_start (c : crc32_h) (m : model_t) : (assemble c m).start = m.start := by
  simp only [assemble, store_crc, ring_take]; split_ifs <;> rfl

@[simp] theorem assemble_empty_print (c : crc32_h) (m : model_t) :
    (assemble c m).empty_print = m.empty_print := by
  simp only [assemble, store_crc, ring_take]; split_ifs <;> rfl

@[simp] theorem assemble_auto_stop (c : crc32_h) (m : model_t) :
    (assemble c m).auto_stop = m.auto_stop := by
  simp only [assemble, store_crc, ring_take]; split_ifs <;> rfl

theorem assemble_sequence (c : crc32_h) (m : model_t) :
    (assemble c m).packet.header.sequence = m.packet.header.sequence := by
  simp only [assemble, store_crc, ring_take]; split_ifs <;> rfl

theorem assemble_empty (c : crc32_h) (m : model_t) (h : m.mw = m.mr) :
    (assemble c m).mr = m.mr ∧ (assemble c m).mod_buff = m.mod_buff ∧
    (assemble c m).mod_size = m.mod_size ∧ (assemble c m).sop = m.sop ∧
    (assemble c m).packet.header.data_len = m.packet.header.data_len ∧
    (assemble c m).packet.data = m.packet.data := by
  have h' : (header_telemetry m).mw = (header_telemetry m).mr := h
  simp only [assemble, store_crc, ring_take_empty _ h']
  exact ⟨rfl, rfl, rfl, rfl, rfl, rfl⟩

theorem assemble_take (c : crc32_h) (m : model_t) (h : m.mw ≠ m.mr) :
    (assemble c m).mr = ring_next m.mr ∧
    (assemble c m).packet.header.data_len = m.mod_size m.mr ∧
    (assemble c m).packet.header.packet_type = m.sop m.mr ∧
    (∀ j, j < m.mod_size m.mr → (assemble c m).packet.data j = m.mod_buff m.mr j) := by
  have h' : (header_telemetry m).mw ≠ (header_telemetry m).mr := h
  simp only [assemble, store_crc, ring_take, h', ne_eq, not_false_eq_true, if_true]
  refine ⟨rfl, rfl, rfl, ?_⟩
  intro j hj
  simp [header_telemetry, hj]

theorem tx_finish_ring (k : mask_h) (st : tx_status) (m : model_t) :
    (tx_finish k st m).mw = m.mw ∧ (tx_finish k st m).mr = m.mr ∧
    (tx_finish k st m).mod_buff = m.mod_buff ∧ (tx_finish k st m).mod_size = m.mod_size ∧
    (tx_finish k st m).sop = m.sop ∧
    (tx_finish k st m).packet.header.sequence = m.packet.header.sequence := by
  cases st <;> simp [tx_finish, packet_clear, start_snooper]

theorem tx_finish_data_len (k : mask_h) (st : tx_status) (m : model_t)
    (h : st ≠ tx_status.pending) : (tx_finish k st m).packet.header.data_len = 0 := by
  cases st <;> simp [tx_finish, packet_clear, start_snooper] at h ⊢

theorem cycle_stopped (k : mask_h) (dt : dt_props) (c : crc32_h) (env : cycle_env)
    (fuel : Nat) (m : model_t) (hs : ¬ m.start = true) :
    model_thread_cycle k dt c env fuel m
      = { m := m, took := false, assembled := none, tx := none } := by
  unfold model_thread_cycle
  rw [if_neg hs]

theorem cycle_skip (k : mask_h) (dt : dt_props) (c : crc32_h) (env : cycle_env)
    (fuel : Nat) (m : model_t) (hs : m.start = true)
    (hq : ¬ (cycle_head k dt env m).packet.header.sequence % 10 < 8) :
    model_thread_cycle k dt c env fuel m
      = { m := cycle_head k dt env m, took := false, assembled := none, tx := none } := by
  unfold model_thread_cycle
  rw [if_pos hs]
  simp only
  rw [if_neg hq]

theorem cycle_quiet (k : mask_h) (dt : dt_props) (c : crc32_h) (env : cycle_env)
    (fuel : Nat) (m : model_t) (hs : m.start = true)
    (hq : (cycle_head k dt env m).packet.header.sequence % 10 < 8)
    (ht : ¬ ((assemble c (cycle_head k dt env m)).empty_print = true ∨
      (assemble c (cycle_head k dt env m)).packet.header.data_len ≠ 0)) :
    model_thread_cycle k dt c env fuel m
      = { m := packet_clear (assemble c (cycle_head k dt env m)),
          took := decide ((cycle_head k dt env m).mw ≠ (cycle_head k dt env m).mr),
          assembled := some (assemble c (cycle_head k dt env m)).packet,
          tx := none } := by
  unfold model_thread_cycle
  rw [if_pos hs]
  simp only
  rw [if_pos hq, if_neg ht]

theorem cycle_tx (k : mask_h) (dt : dt_props) (c : crc32_h) (env : cycle_env)
    (fuel : Nat) (m : model_t) (hs : m.start = true)
    (hq : (cycle_head k dt env m).packet.header.sequence % 10 < 8)
    (ht : (assemble c (cycle_head k dt env m)).empty_print = true ∨
      (assemble c (cycle_head k dt env m)).packet.header.data_len ≠ 0) :
    model_thread_cycle k dt c env fuel m
      = { m := tx_finish k
            (tx_loop env.uart_fifo_fill (assemble c (cycle_head k dt env m)).auto_stop
              (packet_bytes (assemble c (cycle_head k dt env m)).packet) fuel 0 0 0 []).status
            (assemble c (cycle_head k dt env m)),
          took := decide ((cycle_head k dt env m).mw ≠ (cycle_head k dt env m).mr),
          assembled := some (assemble c (cycle_head k dt env m)).packet,
          tx := some (tx_loop env.uart_fifo_fill (assemble c (cycle_head k dt env m)).auto_stop
              (packet_bytes (assemble c (cycle_head k dt env m)).packet) fuel 0 0 0 []) } := by
  unfold model_thread_cycle
  rw [if_pos hs]
  simp only
  rw [if_pos hq, if_pos ht]

theorem tx_loop_stalled (uart : Nat → Int → Int) (h : ∀ n size, uart n size = 0)
    (img : List Nat) :
    ∀ (fuel calls : Nat) (i : Int) (st : Nat) (sent : List Nat),
      i < PACKET_BYTE_SIZE → st ≤ 100 →
      tx_loop uart true img fuel calls i st sent
        = if 101 ≤ st + fuel then
            { status := tx_status.aborted, calls := calls + (101 - st), stop_timer := 101,
              pos := i, sent := sent }
          else
            { status := tx_status.pending, calls := calls + fuel, stop_timer := st + fuel,
              pos := i, sent := sent } := by
  intro fuel
  induction fuel with
  | zero =>
    intro calls i st sent hi hst
    have : ¬ 101 ≤ st := by omega
    simp [tx_loop, hi, this]
  | succ f ih =>
    intro calls i st sent hi hst
    simp only [tx_loop, hi, if_true, h, le_refl, and_true]
    by_cases h100 : st + 1 > 100
    · have hst' : st = 100 := by omega
      subst hst'
      have h3 : 101 ≤ 100 + (f + 1) := by omega
      simp [h3]
    · have h1 : ¬ 101 ≤ st + (f + 1) ↔ ¬ 101 ≤ st + 1 + f := by omega
      rw [if_neg h100, add_zero, ih (calls + 1) i (st + 1) sent hi (by omega)]
      by_cases h2 : 101 ≤ st + 1 + f
      · have h3 : 101 ≤ st + (f + 1) := by omega
        rw [if_pos h2, if_pos h3]
        congr 1
        omega
      · have h3 : ¬ 101 ≤ st + (f + 1) := by omega
        rw [if_neg h2, if_neg h3]
        congr 1 <;> omega

theorem image_chunk_eq (img : List Nat) (a b : Nat) (h : a + b ≤ img.length) :
    image_chunk img (a : Int) (b : Int) = (img.drop a).take b := by
  apply List.ext_getElem
  · simp [image_chunk]
    omega
  · intro n h1 h2
    simp only [image_chunk, List.getElem_map, List.getElem_range, image_byte]
    have hn : n < b := by simpa [image_chunk] using h1
    have h0 : (0 : Int) ≤ (a : Int) + (n : Int) := by omega
    have ht : ((a : Int) + (n : Int)).toNat = a + n := by omega
    rw [if_pos h0, ht, List.getElem_take, List.getElem_drop]
    rw [List.getD_eq_getElem?_getD, List.getElem?_eq_getElem (by omega)]
    rfl

theorem tx_loop_prefix (uart : Nat → Int → Int)
    (h : ∀ n size, 0 ≤ size → 0 ≤ uart n size ∧ uart n size ≤ size) (auto_stop : Bool)
    (img : List Nat)
    (himg : img.length = PACKET_BYTE_SIZE) :
    ∀ (fuel calls : Nat) (a : Nat) (st : Nat),
      a ≤ PACKET_BYTE_SIZE →
      (tx_loop uart auto_stop img fuel calls (a : Int) st (img.take a)).sent
          = img.take (tx_loop uart auto_stop img fuel calls (a : Int) st (img.take a)).pos.toNat ∧
      ((tx_loop uart auto_stop img fuel calls (a : Int) st (img.take a)).status = tx_status.done →
        (tx_loop uart auto_stop img fuel calls (a : Int) st (img.take a)).pos
          = (PACKET_BYTE_SIZE : Int)) := by
  intro fuel
  induction fuel with
  | zero =>
    intro calls a st ha
    simp only [tx_loop, Int.toNat_ofNat, true_and]
    intro hd
    split_ifs at hd with hlt
    have : a = PACKET_BYTE_SIZE := by omega
    rw [this]
  | succ f ih =>
    intro calls a st ha
    simp only [tx_loop]
    by_cases hlt : (a : Int) < PACKET_BYTE_SIZE
    · rw [if_pos hlt]
      obtain ⟨hw0, hw1⟩ := h calls ((PACKET_BYTE_SIZE : Int) - (a : Int)) (by omega)
      generalize uart calls ((PACKET_BYTE_SIZE : Int) - (a : Int)) = w at hw0 hw1
      obtain ⟨b, rfl⟩ := Int.eq_ofNat_of_zero_le hw0
      by_cases hb : (b : Int) ≤ 0
      · have hb0 : b = 0 := by omega
        subst hb0
        simp only [Nat.cast_zero, le_refl, if_true, add_zero]
        split_ifs
        · simp
        · exact ih (calls + 1) a (st + 1) ha
      · rw [if_neg hb]
        have hab : a + b ≤ img.length := by rw [himg]; omega
        rw [image_chunk_eq img a b hab, ← List.take_add]
        have := ih (calls + 1) (a + b) st (by rw [← himg]; exact hab)
        simpa using this
    · rw [if_neg hlt]
      simp only [Int.toNat_ofNat, true_and]
      intro _
      have : a = PACKET_BYTE_SIZE := by omega
      rw [this]

theorem tx_loop_accepts_all (uart : Nat → Int → Int) (h : ∀ n size, uart n size = size)
    (auto_stop : Bool) (img : List Nat) (fuel : Nat) (hf : 1 ≤ fuel) :
    (tx_loop uart auto_stop img fuel 0 0 0 []).status = tx_status.done ∧
    (tx_loop uart auto_stop img fuel 0 0 0 []).calls = 1 := by
  obtain ⟨f, rfl⟩ : ∃ f, fuel = f + 1 := ⟨fuel - 1, by omega⟩
  cases f <;> simp [tx_loop, h, PACKET_BYTE_SIZE, PACKET_HEADER_LEN, PD_SAMPLES, CRC_LEN]

theorem packet_bytes_length (p : packet_t) : (packet_bytes p).length = PACKET_BYTE_SIZE := by
  simp [packet_bytes, header_bytes, data_bytes, le16, le32, PACKET_BYTE_SIZE, PACKET_HEADER_LEN,
    PD_SAMPLES, CRC_LEN]

theorem packet_bytes_take_508 (p : packet_t) :
    (packet_bytes p).take 508 = header_bytes p.header ++ data_bytes p.data := by
  have h : (header_bytes p.header ++ data_bytes p.data).length = 508 := by
    simp [header_bytes, data_bytes, le16, le32, PD_SAMPLES]
  rw [packet_bytes, List.take_left' h]

theorem cycle_tx_isSome (k : mask_h) (dt : dt_props) (c : crc32_h) (env : cycle_env)
    (fuel : Nat) (m : model_t) :
    (model_thread_cycle k dt c env fuel m).tx.isSome = true ↔
      (m.start = true ∧ (cycle_head k dt env m).packet.header.sequence % 10 < 8 ∧
        ((assemble c (cycle_head k dt env m)).empty_print = true ∨
          (assemble c (cycle_head k dt env m)).packet.header.data_len ≠ 0)) := by
  by_cases hs : m.start = true
  · by_cases hq : (cycle_head k dt env m).packet.header.sequence % 10 < 8
    · by_cases ht : (assemble c (cycle_head k dt env m)).empty_print = true ∨
          (assemble c (cycle_head k dt env m)).packet.header.data_len ≠ 0
      · rw [cycle_tx k dt c env fuel m hs hq ht]
        simp only [Option.isSome_some, true_iff]
        exact ⟨hs, hq, ht⟩
      · rw [cycle_quiet k dt c env fuel m hs hq ht]
        simp only [Option.isSome_none, Bool.false_eq_true, false_iff]
        exact fun hc => ht hc.2.2
    · rw [cycle_skip k dt c env fuel m hs hq]
      simp only [Option.isSome_none, Bool.false_eq_true, false_iff]
      exact fun hc => hq hc.2.1
  · rw [cycle_stopped k dt c env fuel m hs]
    simp only [Option.isSome_none, Bool.false_eq_true, false_iff]
    exact fun hc => hs hc.1

theorem cycle_assembled_isSome (k : mask_h) (dt : dt_props) (c : crc32_h) (env : cycle_env)
    (fuel : Nat) (m : model_t) :
    (model_thread_cycle k dt c env fuel m).assembled.isSome = true ↔
      (m.start = true ∧ (cycle_head k dt env m).packet.header.sequence % 10 < 8) := by
  by_cases hs : m.start = true
  · by_cases hq : (cycle_head k dt env m).packet.header.sequence % 10 < 8
    · by_cases ht : (assemble c (cycle_head k dt env m)).empty_print = true ∨
          (assemble c (cycle_head k dt env m)).packet.header.data_len ≠ 0
      · rw [cycle_tx k dt c env fuel m hs hq ht]
        simp only [Option.isSome_some, true_iff]
        exact ⟨hs, hq⟩
      · rw [cycle_quiet k dt c env fuel m hs hq ht]
        simp only [Option.isSome_some, true_iff]
        exact ⟨hs, hq⟩
    · rw [cycle_skip k dt c env fuel m hs hq]
      simp only [Option.isSome_none, Bool.false_eq_true, false_iff]
      exact fun hc => hq hc.2
  · rw [cycle_stopped k dt c env fuel m hs]
    simp only [Option.isSome_none, Bool.false_eq_true, false_iff]
    exact fun hc => hs hc.1

theorem cycle_line_fields (k : mask_h) (dt : dt_props) (c : crc32_h) (env : cycle_env)
    (fuel : Nat) (m : model_t) (hs : m.start = true) :
    (model_thread_cycle k dt c env fuel m).m.ucpd_ccpin = (cycle_head k dt env m).ucpd_ccpin ∧
    (model_thread_cycle k dt c env fuel m).m.view_connection
      = (cycle_head k dt env m).view_connection ∧
    (model_thread_cycle k dt c env fuel m).m.pd_line = (cycle_head k dt env m).pd_line := by
  have hA : ∀ x : model_t, (assemble c x).ucpd_ccpin = x.ucpd_ccpin ∧
      (assemble c x).view_connection = x.view_connection ∧
      (assemble c x).pd_line = x.pd_line := by
    intro x
    simp only [assemble, store_crc, ring_take]
    split_ifs <;> exact ⟨rfl, rfl, rfl⟩
  obtain ⟨a1, a2, a3⟩ := hA (cycle_head k dt env m)
  by_cases hq : (cycle_head k dt env m).packet.header.sequence % 10 < 8
  · by_cases ht : (assemble c (cycle_head k dt env m)).empty_print = true ∨
        (assemble c (cycle_head k dt env m)).packet.header.data_len ≠ 0
    · rw [cycle_tx k dt c env fuel m hs hq ht]
      simp only
      cases (tx_loop env.uart_fifo_fill (assemble c (cycle_head k dt env m)).auto_stop
        (packet_bytes (assemble c (cycle_head k dt env m)).packet) fuel 0 0 0 []).status <;>
        simp [tx_finish, packet_clear, start_snooper, a1, a2, a3]
    · rw [cycle_quiet k dt c env fuel m hs hq ht]
      simp [packet_clear, a1, a2, a3]
  · rw [cycle_skip k dt c env fuel m hs hq]
    exact ⟨rfl, rfl, rfl⟩

theorem ring_next_ne (x : Nat) : ring_next x ≠ x := by
  unfold ring_next MOD_BUFFERS
  simp only
  split_ifs with h <;> omega

theorem cycle_good_uart (k : mask_h) (dt : dt_props) (c : crc32_h) (env : cycle_env)
    (fuel : Nat) (m : model_t) (hs : m.start = true)
    (hq : (cycle_head k dt env m).packet.header.sequence % 10 < 8)
    (huart : ∀ n size, env.uart_fifo_fill n size = size) (hf : 1 ≤ fuel) :
    (model_thread_cycle k dt c env fuel m).finished = true ∧
    (model_thread_cycle k dt c env fuel m).m = packet_clear (assemble c (cycle_head k dt env m)) ∧
    (model_thread_cycle k dt c env fuel m).took = decide (m.mw ≠ m.mr) ∧
    (model_thread_cycle k dt c env fuel m).assembled
      = some (assemble c (cycle_head k dt env m)).packet := by
  by_cases ht : (assemble c (cycle_head k dt env m)).empty_print = true ∨
      (assemble c (cycle_head k dt env m)).packet.header.data_len ≠ 0
  · rw [cycle_tx k dt c env fuel m hs hq ht]
    obtain ⟨h1, -⟩ := tx_loop_accepts_all env.uart_fifo_fill huart
      (assemble c (cycle_head k dt env m)).auto_stop
      (packet_bytes (assemble c (cycle_head k dt env m)).packet) fuel hf
    simp only [cycle_out.finished, h1, tx_finish, cycle_head_mw, cycle_head_mr]
    simp
  · rw [cycle_quiet k dt c env fuel m hs hq ht]
    simp [cycle_out.finished]

theorem cycle_idle (k : mask_h) (dt : dt_props) (c : crc32_h) (env : cycle_env)
    (fuel : Nat) (m : model_t) (hs : m.start = true) (he : m.mw = m.mr)
    (h0 : m.packet.header.data_len = 0)
    (hseq : m.packet.header.sequence + 1 < 2 ^ 32)
    (huart : ∀ n size, env.uart_fifo_fill n size = size) (hf : 1 ≤ fuel) :
    (model_thread_cycle k dt c env fuel m).finished = true ∧
    (model_thread_cycle k dt c env fuel m).took = false ∧
    (model_thread_cycle k dt c env fuel m).m.start = true ∧
    (model_thread_cycle k dt c env fuel m).m.mw = m.mw ∧
    (model_thread_cycle k dt c env fuel m).m.mr = m.mr ∧
    (model_thread_cycle k dt c env fuel m).m.packet.header.data_len = 0 ∧
    (model_thread_cycle k dt c env fuel m).m.packet.header.sequence
      = m.packet.header.sequence + 1 ∧
    (model_thread_cycle k dt c env fuel m).assembled.isSome
      = decide ((m.packet.header.sequence + 1) % 10 < 8) ∧
    (∀ p, (model_thread_cycle k dt c env fuel m).assembled = some p →
      p.header.data_len = 0 ∧ p.header.sequence = m.packet.header.sequence + 1) := by
  have hsq : (cycle_head k dt env m).packet.header.sequence = m.packet.header.sequence + 1 := by
    rw [cycle_head_sequence, Nat.mod_eq_of_lt hseq]
  have hh : (cycle_head k dt env m).mw = (cycle_head k dt env m).mr := by simp [he]
  obtain ⟨a1, -, -, -, a5, -⟩ := assemble_empty c _ hh
  rw [cycle_head_data_len, h0] at a5
  by_cases hq : (cycle_head k dt env m).packet.header.sequence % 10 < 8
  · obtain ⟨g1, g2, g3, g4⟩ := cycle_good_uart k dt c env fuel m hs hq huart hf
    rw [g2, g3, g4]
    rw [hsq] at hq
    refine ⟨g1, by simp [he], ?_, ?_, ?_, rfl, ?_, by simp [hq], ?_⟩
    · simp [packet_clear, hs]
    · simp [packet_clear]
    · simp only [packet_clear, a1, cycle_head_mr]
    · simp only [packet_clear, assemble_sequence, hsq]
    · intro p hp
      simp only [Option.some.injEq] at hp
      rw [← hp, a5, assemble_sequence, hsq]
      exact ⟨rfl, rfl⟩
  · rw [cycle_skip k dt c env fuel m hs hq]
    rw [hsq] at hq
    refine ⟨rfl, rfl, by simp [hs], by simp, by simp, ?_, hsq, by simp [hq], by simp⟩
    simp only [cycle_head_data_len, h0]

theorem run_idle (k : mask_h) (dt : dt_props) (c : crc32_h) (env : Nat → cycle_env)
    (fuel : Nat) (huart : ∀ i n size, (env i).uart_fifo_fill n size = size) (hf : 1 ≤ fuel) :
    ∀ (n i : Nat) (m : model_t), m.start = true → m.mw = m.mr →
      m.packet.header.data_len = 0 → m.packet.header.sequence + n < 2 ^ 32 →
      ∃ os, run_cycles k dt c env fuel n i m = some os ∧ os.length = n ∧
        ∀ j o, os[j]? = some o →
          o.took = false ∧ o.m.mr = m.mr ∧
          o.m.packet.header.sequence = m.packet.header.sequence + j + 1 ∧
          o.assembled.isSome = decide ((m.packet.header.sequence + j + 1) % 10 < 8) ∧
          (∀ p, o.assembled = some p →
            p.header.data_len = 0 ∧ p.header.sequence = m.packet.header.sequence + j + 1) := by
  intro n
  induction n with
  | zero =>
    intro i m _ _ _ _
    exact ⟨[], rfl, rfl, fun j o h => by simp at h⟩
  | succ n ih =>
    intro i m hs he h0 hseq
    obtain ⟨c1, c2, c3, c4, c5, c6, c7, c8, c9⟩ :=
      cycle_idle k dt c (env i) fuel m hs he h0 (by omega) (huart i) hf
    obtain ⟨os, r1, r2, r3⟩ := ih (i + 1) (model_thread_cycle k dt c (env i) fuel m).m c3
      (by rw [c4, c5]; exact he) c6 (by rw [c7]; omega)
    refine ⟨model_thread_cycle k dt c (env i) fuel m :: os, ?_, by simp [r2], ?_⟩
    · simp only [run_cycles, c1, if_true, r1, Option.map_some']
    · intro j o hj
      cases j with
      | zero =>
        simp only [List.getElem?_cons_zero, Option.some.injEq] at hj
        subst hj
        exact ⟨c2, c5, by rw [c7], by rw [c8], fun p hp => c9 p hp⟩
      | succ j =>
        simp only [List.getElem?_cons_succ] at hj
        obtain ⟨q1, q2, q3, q4, q5⟩ := r3 j o hj
        rw [c7] at q3 q4 q5
        rw [c5] at q2
        have e1 : m.packet.header.sequence + 1 + j + 1 = m.packet.header.sequence + (j + 1) + 1 := by
          omega
        rw [e1] at q3 q4 q5
        exact ⟨q1, q2, q3, q4, q5⟩

theorem ucpd_isr_packet (hw : ucpd_hw) (m : model_t) : (ucpd_isr hw m).packet = m.packet := by
  cases h1 : hw.RxErr <;> cases h2 : hw.RxMsgEnd <;> simp [ucpd_isr, isr_store, h1, h2]

theorem cycle_finished_data_len (k : mask_h) (dt : dt_props) (c : crc32_h) (env : cycle_env)
    (fuel : Nat) (m : model_t) (h0 : m.packet.header.data_len = 0)
    (hfin : (model_thread_cycle k dt c env fuel m).finished = true) :
    (model_thread_cycle k dt c env fuel m).m.packet.header.data_len = 0 := by
  by_cases hs : m.start = true
  · by_cases hq : (cycle_head k dt env m).packet.header.sequence % 10 < 8
    · by_cases ht : (assemble c (cycle_head k dt env m)).empty_print = true ∨
          (assemble c (cycle_head k dt env m)).packet.header.data_len ≠ 0
      · rw [cycle_tx k dt c env fuel m hs hq ht] at hfin ⊢
        simp only [cycle_out.finished, decide_eq_true_eq] at hfin
        exact tx_finish_data_len k _ _ hfin
      · rw [cycle_quiet k dt c env fuel m hs hq ht]
        rfl
    · rw [cycle_skip k dt c env fuel m hs hq]
      simp only [cycle_head_data_len, h0]
  · rw [cycle_stopped k dt c env fuel m hs]
    exact h0

theorem reachable_data_len (k : mask_h) (dt : dt_props) (c : crc32_h) (m : model_t)
    (h : reachable k dt c m) : m.packet.header.data_len = 0 := by
  induction h with
  | init ok => cases ok <;> rfl
  | dma buf m _ ih => exact ih
  | isr hw m _ ih => rw [ucpd_isr_packet]; exact ih
  | cycle env fuel m _ hfin ih => exact cycle_finished_data_len k dt c env fuel m ih hfin
  | reset m _ ih => exact ih
  | start b m _ ih => cases b <;> exact ih
  | empty_print e m _ ih => exact ih
  | auto_stop b m _ ih => exact ih
  | sleep_time st m _ ih => exact ih
  | snoop mask m _ ih => exact ih

theorem cycle_empty_ring (k : mask_h) (dt : dt_props) (c : crc32_h) (env : cycle_env)
    (fuel : Nat) (m : model_t) (h : m.mw = m.mr) :
    (model_thread_cycle k dt c env fuel m).took = false ∧
    (model_thread_cycle k dt c env fuel m).m.mr = m.mr ∧
    (model_thread_cycle k dt c env fuel m).m.mw = m.mw ∧
    (model_thread_cycle k dt c env fuel m).m.mod_buff = m.mod_buff ∧
    (model_thread_cycle k dt c env fuel m).m.mod_size = m.mod_size ∧
    (model_thread_cycle k dt c env fuel m).m.sop = m.sop ∧
    (m.packet.header.data_len = 0 →
      (∀ p, (model_thread_cycle k dt c env fuel m).assembled = some p → p.header.data_len = 0) ∧
      (model_thread_cycle k dt c env fuel m).m.packet.header.data_len = 0) := by
  have hh : (cycle_head k dt env m).mw = (cycle_head k dt env m).mr := by simp [h]
  obtain ⟨a1, a2, a3, a4, a5, -⟩ := assemble_empty c _ hh
  rw [cycle_head_data_len] at a5
  by_cases hs : m.start = true
  · by_cases hq : (cycle_head k dt env m).packet.header.sequence % 10 < 8
    · by_cases ht : (assemble c (cycle_head k dt env m)).empty_print = true ∨
          (assemble c (cycle_head k dt env m)).packet.header.data_len ≠ 0
      · rw [cycle_tx k dt c env fuel m hs hq ht]
        obtain ⟨f1, f2, f3, f4, f5, -⟩ :=
          tx_finish_ring k (tx_loop env.uart_fifo_fill
            (assemble c (cycle_head k dt env m)).auto_stop
            (packet_bytes (assemble c (cycle_head k dt env m)).packet) fuel 0 0 0 []).status
            (assemble c (cycle_head k dt env m))
        refine ⟨by simp [h], ?_, ?_, ?_, ?_, ?_, ?_⟩
        · simp only [f2, a1, cycle_head_mr]
        · simp only [f1, assemble_mw, cycle_head_mw]
        · simp only [f3, a2, cycle_head_mod_buff]
        · simp only [f4, a3, cycle_head_mod_size]
        · simp only [f5, a4, cycle_head_sop]
        · intro h0
          refine ⟨?_, ?_⟩
          · intro p hp
            simp only [Option.some.injEq] at hp
            rw [← hp, a5, h0]
          · simp only
            cases (tx_loop env.uart_fifo_fill (assemble c (cycle_head k dt env m)).auto_stop
              (packet_bytes (assemble c (cycle_head k dt env m)).packet) fuel 0 0 0 []).status <;>
              simp [tx_finish, packet_clear, start_snooper, a5, h0]
      · rw [cycle_quiet k dt c env fuel m hs hq ht]
        refine ⟨by simp [h], ?_, ?_, ?_, ?_, ?_, ?_⟩
        · simp only [packet_clear, a1, cycle_head_mr]
        · simp only [packet_clear, assemble_mw, cycle_head_mw]
        · simp only [packet_clear, a2, cycle_head_mod_buff]
        · simp only [packet_clear, a3, cycle_head_mod_size]
        · simp only [packet_clear, a4, cycle_head_sop]
        · intro h0
          refine ⟨?_, rfl⟩
          intro p hp
          simp only [Option.some.injEq] at hp
          rw [← hp, a5, h0]
    · rw [cycle_skip k dt c env fuel m hs hq]
      refine ⟨rfl, by simp, by simp, by simp, by simp, by simp, ?_⟩
      intro h0
      exact ⟨by simp, by simp [cycle_head_data_len, h0]⟩
  · rw [cycle_stopped k dt c env fuel m hs]
    exact ⟨rfl, rfl, rfl, rfl, rfl, rfl, fun h0 => ⟨by simp, h0⟩⟩

/-! ## C1 -/

/-- C1 (as amended). For every sequence `es` of fewer than 40 captures put by
`ucpd_isr` into a freshly reset ring with no take in between: the `k`-th take
finds the ring non-empty and leaves in the packet the `k`-th capture's length,
its payload bytes below that length, its line and its partial flag, and after
as many takes as there were puts the read index equals the write index. -/
theorem ring_fifo_below_capacity (m0 : model_t) (es : List rx_event)
    (hN : es.length < MOD_BUFFERS) :
    (∀ k e, es[k]? = some e →
      (ring_take^[k] (receive_all es (reset_snooper m0))).mw
        ≠ (ring_take^[k] (receive_all es (reset_snooper m0))).mr ∧
      packet_holds (ring_take^[k + 1] (receive_all es (reset_snooper m0))).packet e
        m0.pd_line) ∧
    (ring_take^[es.length] (receive_all es (reset_snooper m0))).mr
      = (ring_take^[es.length] (receive_all es (reset_snooper m0))).mw := by
  have h := puts_then_takes m0 es
  rw [Nat.mod_eq_of_lt hN, Nat.sub_self] at h
  refine ⟨?_, h.2⟩
  intro k e hk
  have hlt : k < es.length := by
    by_contra hc
    rw [List.getElem?_eq_none (by omega)] at hk
    exact absurd hk (by simp)
  exact h.1 k e hlt (by rw [Nat.zero_add]; exact hk)

/-- Two captures put into the reset ring come back in order: instance of
`ring_fifo_below_capacity`. -/
theorem ring_fifo_below_capacity_witness :
    (sample_events 2).length < MOD_BUFFERS ∧
    ((∀ k e, (sample_events 2)[k]? = some e →
      (ring_take^[k] (receive_all (sample_events 2) (reset_snooper model_zero))).mw
        ≠ (ring_take^[k] (receive_all (sample_events 2) (reset_snooper model_zero))).mr ∧
      packet_holds
        (ring_take^[k + 1] (receive_all (sample_events 2) (reset_snooper model_zero))).packet e
        model_zero.pd_line) ∧
    (ring_take^[(sample_events 2).length]
        (receive_all (sample_events 2) (reset_snooper model_zero))).mr
      = (ring_take^[(sample_events 2).length]
        (receive_all (sample_events 2) (reset_snooper model_zero))).mw) :=
  ⟨by decide, ring_fifo_below_capacity model_zero (sample_events 2) (by decide)⟩

/-- C1 (as stated) fails. With N = 40 captures of lengths 1..40 put into the
reset ring, the write index has wrapped onto the read index, so the first take
finds the ring empty and returns payload length 0 instead of 1. With N = 2
captures whose ordered-set codes are 1 and 2, the first take returns type 2:
both codes were written to the slot at the read index. -/
theorem ring_fifo_at_capacity_fails :
    (sample_events 40).length = MOD_BUFFERS ∧
    (receive_all (sample_events 40) (reset_snooper model_zero)).mw
      = (receive_all (sample_events 40) (reset_snooper model_zero)).mr ∧
    (ring_take (receive_all (sample_events 40) (reset_snooper model_zero))).packet.header.data_len
      = 0 ∧
    (ring_take (receive_all (sample_events 2) (reset_snooper model_zero))).packet.header.packet_type.type
      = 2 ∧
    (ring_take (ring_take (receive_all (sample_events 2) (reset_snooper model_zero)))).packet.header.packet_type.type
      = 0 := by
  have hf := receive_all_frame (sample_events 40) (reset_snooper model_zero) (by decide)
  have hlen : (sample_events 40).length = 40 := by decide
  have hw : (receive_all (sample_events 40) (reset_snooper model_zero)).mw
      = (receive_all (sample_events 40) (reset_snooper model_zero)).mr := by
    rw [hf.1, hf.2.1, hlen]
    rfl
  refine ⟨by decide, hw, ?_, by decide, by decide⟩
  rw [ring_take_empty _ hw, hf.2.2.2]
  rfl

/-! ## C2 -/

/-- C2 (as amended). The producer never moves the read index. For every
sequence `es` of more than 40 captures put into a freshly reset ring with no
take in between, with `q = es.length % 40`: the ring then presents exactly the
newest `q` captures; the `t`-th take (`t < q`) finds the ring non-empty and
leaves in the packet the length, payload bytes, line and partial flag of capture
number `es.length - q + t`; after `q` takes the read index equals the write
index and a further take changes nothing, so the `es.length - q` older captures,
at least 40 of them, are not returned. -/
theorem ring_overflow_keeps_last_lap (m0 : model_t) (es : List rx_event)
    (hP : MOD_BUFFERS < es.length) :
    (∀ t e, t < es.length % MOD_BUFFERS →
      es[es.length - es.length % MOD_BUFFERS + t]? = some e →
        (ring_take^[t] (receive_all es (reset_snooper m0))).mw
          ≠ (ring_take^[t] (receive_all es (reset_snooper m0))).mr ∧
        packet_holds (ring_take^[t + 1] (receive_all es (reset_snooper m0))).packet e
          m0.pd_line) ∧
    (ring_take^[es.length % MOD_BUFFERS] (receive_all es (reset_snooper m0))).mr
      = (ring_take^[es.length % MOD_BUFFERS] (receive_all es (reset_snooper m0))).mw ∧
    ring_take (ring_take^[es.length % MOD_BUFFERS] (receive_all es (reset_snooper m0)))
      = ring_take^[es.length % MOD_BUFFERS] (receive_all es (reset_snooper m0)) ∧
    MOD_BUFFERS ≤ es.length - es.length % MOD_BUFFERS := by
  have h := puts_then_takes m0 es
  refine ⟨h.1, h.2, ring_take_empty _ h.2.symm, ?_⟩
  simp only [ MOD_BUFFERS] at hP ⊢
  omega

/-- Forty-one captures put into the reset ring: instance of
`ring_overflow_keeps_last_lap`. -/
theorem ring_overflow_keeps_last_lap_witness :
    MOD_BUFFERS < (sample_events 41).length ∧
    ((∀ t e, t < (sample_events 41).length % MOD_BUFFERS →
      (sample_events 41)[(sample_events 41).length
          - (sample_events 41).length % MOD_BUFFERS + t]? = some e →
        (ring_take^[t] (receive_all (sample_events 41) (reset_snooper model_zero))).mw
          ≠ (ring_take^[t] (receive_all (sample_events 41) (reset_snooper model_zero))).mr ∧
        packet_holds
          (ring_take^[t + 1] (receive_all (sample_events 41) (reset_snooper model_zero))).packet
          e model_zero.pd_line) ∧
    (ring_take^[(sample_events 41).length % MOD_BUFFERS]
        (receive_all (sample_events 41) (reset_snooper model_zero))).mr
      = (ring_take^[(sample_events 41).length % MOD_BUFFERS]
        (receive_all (sample_events 41) (reset_snooper model_zero))).mw ∧
    ring_take (ring_take^[(sample_events 41).length % MOD_BUFFERS]
        (receive_all (sample_events 41) (reset_snooper model_zero)))
      = ring_take^[(sample_events 41).length % MOD_BUFFERS]
        (receive_all (sample_events 41) (reset_snooper model_zero)) ∧
    MOD_BUFFERS ≤ (sample_events 41).length - (sample_events 41).length % MOD_BUFFERS) :=
  ⟨by decide, ring_overflow_keeps_last_lap model_zero (sample_events 41) (by decide)⟩

/-- C2 (as stated) fails. With P = 41 captures of lengths 1..41 put into the
reset ring, the claim drops one capture and has the first take return the
capture of length 2. The code's first take returns the capture of length 41,
and after it the read index equals the write index: one capture is returned
and forty are lost. -/
theorem ring_overflow_not_overwrite_oldest :
    (sample_events 41).length = MOD_BUFFERS + 1 ∧
    (ring_take (receive_all (sample_events 41) (reset_snooper model_zero))).packet.header.data_len
      = 41 ∧
    (ring_take (receive_all (sample_events 41) (reset_snooper model_zero))).mr
      = (ring_take (receive_all (sample_events 41) (reset_snooper model_zero))).mw ∧
    (ring_take (ring_take (receive_all (sample_events 41) (reset_snooper model_zero))))
      = ring_take (receive_all (sample_events 41) (reset_snooper model_zero)) := by
  have h := puts_then_takes model_zero (sample_events 41)
  have hlen : (sample_events 41).length = 41 := by decide
  rw [hlen] at h
  have hq : 41 % MOD_BUFFERS = 1 := by decide
  rw [hq] at h
  have h0 := (h.1 0 (sample_event 41) (by decide) (by simp [sample_events])).2.1
  have hB := h.2
  clear h
  refine ⟨hlen, ?_⟩
  generalize receive_all (sample_events 41) (reset_snooper model_zero) = s at h0 hB ⊢
  rw [Nat.zero_add, Function.iterate_one] at h0
  rw [Function.iterate_one] at hB
  exact ⟨h0, hB, ring_take_empty _ hB.symm⟩

/-! ## C3 -/

/-- C3. From `start_snooper(true)` on a state whose ring is empty and whose
`pd_line` is 1 (line A), after one message-complete put of a capture of length
12, with a UART that accepts every byte offered and no further put: the next 10
iterations of `model_thread` all run to their end; iteration `i` (from 0) has
sequence number `i + 1` and assembles a packet exactly when `(i + 1) % 10 < 8`,
which makes 8 of the 10; only iteration 0 takes from the ring and the read
index moves once; its packet has payload length 12, the capture's first 12
bytes, line A, partial 0 and the ordered-set code read from the hardware; every
other packet has payload length 0. -/
theorem end_to_end_single_capture (k : mask_h) (dt : dt_props) (c : crc32_h)
    (env : Nat → cycle_env) (fuel : Nat) (m0 : model_t) (e : rx_event)
    (hempty : m0.mw = m0.mr) (hline : m0.pd_line = 1)
    (herr : e.err = false) (hlen : e.paysize = 12)
    (huart : ∀ i n size, (env i).uart_fifo_fill n size = size) (hf : 1 ≤ fuel) :
    ∃ os, run_cycles k dt c env fuel 10 0 (receive e (start_snooper k true m0)) = some os ∧
      os.length = 10 ∧
      os.map (fun o => o.assembled.isSome)
        = [true, true, true, true, true, true, true, false, false, true] ∧
      ∀ i o, os[i]? = some o →
        o.m.packet.header.sequence = i + 1 ∧
        o.assembled.isSome = decide ((i + 1) % 10 < 8) ∧
        o.took = decide (i = 0) ∧
        o.m.mr = ring_next m0.mr ∧
        (∀ p, o.assembled = some p →
          p.header.sequence = i + 1 ∧
          (i = 0 →
            p.header.data_len = 12 ∧
            (∀ j, j < 12 → p.data j = e.dma j) ∧
            p.header.packet_type.polarity = 1 ∧
            p.header.packet_type.partial_bit = 0 ∧
            p.header.packet_type.type = e.ordset % 16) ∧
          (i ≠ 0 → p.header.data_len = 0)) := by
  have hstart : (receive e (start_snooper k true m0)).start = true := by
    cases h : e.err <;> simp [receive, ucpd_isr, isr_store, h, start_snooper, set_sequence]
  have hseq0 : (receive e (start_snooper k true m0)).packet.header.sequence = 0 := by
    rw [receive_packet]
    simp [start_snooper, set_sequence]
  have hmr : (receive e (start_snooper k true m0)).mr = m0.mr := by
    rw [receive_mr]
    simp [start_snooper, set_sequence]
  have hmw : (receive e (start_snooper k true m0)).mw = ring_next m0.mr := by
    rw [receive_mw]
    simp [start_snooper, set_sequence, hempty]
  have hsz : (receive e (start_snooper k true m0)).mod_size m0.mr = 12 := by
    rw [receive_mod_size]
    simp [start_snooper, set_sequence, hempty, hlen]
  have hbuf : ∀ j, j < 12 → (receive e (start_snooper k true m0)).mod_buff m0.mr j = e.dma j := by
    intro j hj
    rw [receive_mod_buff]
    have : j < PD_SAMPLES := by unfold PD_SAMPLES; omega
    simp [start_snooper, set_sequence, hempty, this]
  have hpol : ((receive e (start_snooper k true m0)).sop m0.mr).polarity = 1 := by
    rw [receive_sop_polarity]
    simp [start_snooper, set_sequence, hempty, hline]
  have hpar : ((receive e (start_snooper k true m0)).sop m0.mr).partial_bit = 0 := by
    rw [receive_sop_partial_bit]
    simp [start_snooper, set_sequence, hempty, herr]
  have htyp : ((receive e (start_snooper k true m0)).sop m0.mr).type = e.ordset % 16 := by
    rw [receive_sop_type]
    simp [start_snooper, set_sequence]
  generalize receive e (start_snooper k true m0) = s at hstart hseq0 hmr hmw hsz hbuf hpol hpar htyp
  have hne : s.mw ≠ s.mr := by rw [hmw, hmr]; exact ring_next_ne _
  have hsq : (cycle_head k dt (env 0) s).packet.header.sequence = 1 := by
    rw [cycle_head_sequence, hseq0]
    rfl
  have hq : (cycle_head k dt (env 0) s).packet.header.sequence % 10 < 8 := by
    rw [hsq]
    decide
  obtain ⟨g1, g2, g3, g4⟩ := cycle_good_uart k dt c (env 0) fuel s hstart hq (huart 0) hf
  have hne' : (cycle_head k dt (env 0) s).mw ≠ (cycle_head k dt (env 0) s).mr := by
    simpa using hne
  obtain ⟨a1, a2, a3, a4⟩ := assemble_take c _ hne'
  simp only [cycle_head_mr, cycle_head_mod_size, cycle_head_sop, cycle_head_mod_buff, hmr] at a1 a2 a3 a4
  have n1 : (model_thread_cycle k dt c (env 0) fuel s).m.start = true := by
    rw [g2]; simp [packet_clear, hstart]
  have n2 : (model_thread_cycle k dt c (env 0) fuel s).m.mw
      = (model_thread_cycle k dt c (env 0) fuel s).m.mr := by
    rw [g2]
    simp only [packet_clear, assemble_mw, cycle_head_mw, a1, hmw]
  have n3 : (model_thread_cycle k dt c (env 0) fuel s).m.packet.header.data_len = 0 := by
    rw [g2]; rfl
  have n4 : (model_thread_cycle k dt c (env 0) fuel s).m.packet.header.sequence = 1 := by
    rw [g2]
    simp only [packet_clear, assemble_sequence, hsq]
  have n5 : (model_thread_cycle k dt c (env 0) fuel s).m.mr = ring_next m0.mr := by
    rw [g2]
    simp only [packet_clear, a1]
  obtain ⟨os, r1, r2, r3⟩ := run_idle k dt c env fuel huart hf 9 1
    (model_thread_cycle k dt c (env 0) fuel s).m n1 n2 n3 (by rw [n4]; decide)
  have hpt : ∀ i o, (model_thread_cycle k dt c (env 0) fuel s :: os)[i]? = some o →
      o.m.packet.header.sequence = i + 1 ∧
      o.assembled.isSome = decide ((i + 1) % 10 < 8) ∧
      o.took = decide (i = 0) ∧
      o.m.mr = ring_next m0.mr ∧
      (∀ p, o.assembled = some p →
        p.header.sequence = i + 1 ∧
        (i = 0 →
          p.header.data_len = 12 ∧
          (∀ j, j < 12 → p.data j = e.dma j) ∧
          p.header.packet_type.polarity = 1 ∧
          p.header.packet_type.partial_bit = 0 ∧
          p.header.packet_type.type = e.ordset % 16) ∧
        (i ≠ 0 → p.header.data_len = 0)) := by
    intro i o hi
    cases i with
    | zero =>
      simp only [List.getElem?_cons_zero, Option.some.injEq] at hi
      subst hi
      refine ⟨n4, by rw [g4]; rfl, by rw [g3]; simp [hne], n5, ?_⟩
      intro p hp
      rw [g4] at hp
      simp only [Option.some.injEq] at hp
      subst hp
      refine ⟨by rw [assemble_sequence, hsq], fun _ => ⟨?_, ?_, ?_, ?_, ?_⟩, fun hc => absurd rfl hc⟩
      · rw [a2, hsz]
      · intro j hj
        rw [a4 j (by rw [hsz]; exact hj), hbuf j hj]
      · rw [a3, hpol]
      · rw [a3, hpar]
      · rw [a3, htyp]
    | succ i =>
      simp only [List.getElem?_cons_succ] at hi
      obtain ⟨q1, q2, q3, q4, q5⟩ := r3 i o hi
      rw [n4] at q3 q4 q5
      rw [n5] at q2
      have e1 : 1 + i + 1 = i + 1 + 1 := by omega
      rw [e1] at q3 q4 q5
      refine ⟨q3, q4, by rw [q1]; simp, q2, ?_⟩
      intro p hp
      obtain ⟨z1, z2⟩ := q5 p hp
      exact ⟨z2, fun hc => absurd hc (by omega), fun _ => z1⟩
  refine ⟨model_thread_cycle k dt c (env 0) fuel s :: os, ?_, by simp [r2], ?_, hpt⟩
  · show run_cycles k dt c env fuel (9 + 1) 0 s = _
    rw [run_cycles]
    simp only [g1, if_true, Nat.zero_add, r1, Option.map_some']
  · have hl : (model_thread_cycle k dt c (env 0) fuel s :: os).length = 10 := by simp [r2]
    generalize model_thread_cycle k dt c (env 0) fuel s :: os = l at hpt hl
    apply List.ext_getElem (by simp [hl])
    intro i h1 h2
    have hi : i < l.length := by simpa using h1
    have hx := (hpt i l[i] (List.getElem?_eq_getElem hi)).2.1
    rw [List.getElem_map, hx]
    rw [hl] at hi
    interval_cases i <;> rfl

/-- The sample capture of length 12 put after `start_snooper(true)` on the
sample snooper: instance of `end_to_end_single_capture`. -/
theorem end_to_end_single_capture_witness :
    sample_running.mw = sample_running.mr ∧ sample_running.pd_line = 1 ∧
    (sample_event 12).err = false ∧ (sample_event 12).paysize = 12 ∧
    (∀ i n size, (sample_envs 0 0 uart_accepts_all i).uart_fifo_fill n size = size) ∧
    ∃ os, run_cycles sample_masks sample_dt sample_crc (sample_envs 0 0 uart_accepts_all) 1 10 0
        (receive (sample_event 12) (start_snooper sample_masks true sample_running)) = some os ∧
      os.length = 10 ∧
      os.map (fun o => o.assembled.isSome)
        = [true, true, true, true, true, true, true, false, false, true] :=
  ⟨rfl, rfl, rfl, rfl, fun _ _ _ => rfl,
   (end_to_end_single_capture sample_masks sample_dt sample_crc
      (sample_envs 0 0 uart_accepts_all) 1 sample_running (sample_event 12)
      rfl rfl rfl rfl (fun _ _ _ => rfl) (le_refl 1)).imp
      (fun _ h => ⟨h.1, h.2.1, h.2.2.1⟩)⟩

/-! ## Supporting lemmas for C4 and C9 -/

theorem tx_loop_calls_mono (uart : Nat → Int → Int) (auto_stop : Bool) (img : List Nat) :
    ∀ (fuel calls : Nat) (i : Int) (st : Nat) (sent : List Nat),
      calls ≤ (tx_loop uart auto_stop img fuel calls i st sent).calls := by
  intro fuel
  induction fuel with
  | zero => intro calls i st sent; simp [tx_loop]
  | succ f ih =>
    intro calls i st sent
    simp only [tx_loop]
    split_ifs
    · exact Nat.le_succ _
    · exact Nat.le_trans (Nat.le_succ _) (ih (calls + 1) _ _ _)
    · exact Nat.le_trans (Nat.le_succ _) (ih (calls + 1) _ _ _)
    · exact Nat.le_refl _

theorem tx_loop_calls_pos (uart : Nat → Int → Int) (auto_stop : Bool) (img : List Nat)
    (fuel : Nat) (hf : 1 ≤ fuel) : 1 ≤ (tx_loop uart auto_stop img fuel 0 0 0 []).calls := by
  obtain ⟨f, rfl⟩ : ∃ f, fuel = f + 1 := ⟨fuel - 1, by omega⟩
  have hpos : (0 : Int) < (PACKET_BYTE_SIZE : Int) := by decide
  simp only [tx_loop, hpos, if_true]
  split_ifs
  · exact Nat.le_refl _
  · exact tx_loop_calls_mono uart auto_stop img f (0 + 1) _ _ _
  · exact tx_loop_calls_mono uart auto_stop img f (0 + 1) _ _ _

theorem tx_loop_stalled_sent (uart : Nat → Int → Int) (h : ∀ n size, uart n size = 0)
    (auto_stop : Bool) (img : List Nat) :
    ∀ (fuel calls : Nat) (i : Int) (st : Nat) (sent : List Nat),
      (tx_loop uart auto_stop img fuel calls i st sent).sent = sent := by
  intro fuel
  induction fuel with
  | zero => intro calls i st sent; simp [tx_loop]
  | succ f ih =>
    intro calls i st sent
    simp only [tx_loop, h, le_refl, if_true, add_zero]
    split_ifs
    · rfl
    · exact ih _ _ _ _
    · rfl

theorem write_loop_stalled (k : mask_h) (uart : Nat → Int → Int)
    (hstall : ∀ n size, uart n size = 0) (m5 : model_t) (img : List Nat)
    (hauto : m5.auto_stop = true) :
    (∀ fuel, fuel ≤ 100 →
      (tx_loop uart m5.auto_stop img fuel 0 0 0 []).status = tx_status.pending ∧
      (tx_loop uart m5.auto_stop img fuel 0 0 0 []).calls = fuel ∧
      (tx_loop uart m5.auto_stop img fuel 0 0 0 []).sent = [] ∧
      tx_finish k (tx_loop uart m5.auto_stop img fuel 0 0 0 []).status m5 = m5) ∧
    (∀ fuel, 101 ≤ fuel →
      (tx_loop uart m5.auto_stop img fuel 0 0 0 []).status = tx_status.aborted ∧
      (tx_loop uart m5.auto_stop img fuel 0 0 0 []).calls = 101 ∧
      (tx_loop uart m5.auto_stop img fuel 0 0 0 []).stop_timer = 101 ∧
      (tx_loop uart m5.auto_stop img fuel 0 0 0 []).sent = [] ∧
      (tx_finish k (tx_loop uart m5.auto_stop img fuel 0 0 0 []).status m5).start = false) := by
  have hpos : ((0 : Nat) : Int) < (PACKET_BYTE_SIZE : Int) := by decide
  rw [hauto]
  constructor
  · intro fuel hf
    have hl := tx_loop_stalled uart hstall img fuel 0 0 0 [] hpos (by omega)
    have hn : ¬ 101 ≤ 0 + fuel := by omega
    rw [if_neg hn] at hl
    rw [hl]
    exact ⟨rfl, by simp, rfl, rfl⟩
  · intro fuel hf
    have hl := tx_loop_stalled uart hstall img fuel 0 0 0 [] hpos (by omega)
    have hn : 101 ≤ 0 + fuel := by omega
    rw [if_pos hn] at hl
    rw [hl]
    refine ⟨rfl, rfl, rfl, rfl, ?_⟩
    simp only [tx_finish, packet_clear, start_snooper]
    rfl

theorem cycle_stalled_run (k : mask_h) (dt : dt_props) (c : crc32_h) (env : cycle_env)
    (m : model_t) (hauto : m.auto_stop = true)
    (_hcap : m.mw ≠ m.mr → m.mod_size m.mr ≤ PD_SAMPLES)
    (hstall : ∀ n size, env.uart_fifo_fill n size = 0)
    (htx : (model_thread_cycle k dt c env 0 m).tx.isSome = true) :
    (∀ fuel, fuel ≤ 100 →
      ∃ r, (model_thread_cycle k dt c env fuel m).tx = some r ∧
        r.status = tx_status.pending ∧ r.calls = fuel ∧ r.sent = [] ∧
        (model_thread_cycle k dt c env fuel m).m.start = true) ∧
    (∀ fuel, 101 ≤ fuel →
      ∃ r, (model_thread_cycle k dt c env fuel m).tx = some r ∧
        r.status = tx_status.aborted ∧ r.calls = 101 ∧ r.stop_timer = 101 ∧ r.sent = [] ∧
        (model_thread_cycle k dt c env fuel m).m.start = false) := by
  obtain ⟨hs, hq, ht⟩ := (cycle_tx_isSome k dt c env 0 m).1 htx
  have ha : (assemble c (cycle_head k dt env m)).auto_stop = true := by simp [hauto]
  have hst : (assemble c (cycle_head k dt env m)).start = true := by simp [hs]
  obtain ⟨w1, w2⟩ := write_loop_stalled k env.uart_fifo_fill hstall
    (assemble c (cycle_head k dt env m))
    (packet_bytes (assemble c (cycle_head k dt env m)).packet) ha
  constructor
  · intro fuel hf
    obtain ⟨p1, p2, p3, p4⟩ := w1 fuel hf
    rw [cycle_tx k dt c env fuel m hs hq ht]
    refine ⟨_, rfl, p1, p2, p3, ?_⟩
    simp only [p4]
    exact hst
  · intro fuel hf
    obtain ⟨p1, p2, p3, p4, p5⟩ := w2 fuel hf
    rw [cycle_tx k dt c env fuel m hs hq ht]
    exact ⟨_, rfl, p1, p2, p3, p4, p5⟩

theorem cycle_accepting_sends (k : mask_h) (dt : dt_props) (c : crc32_h) (env : cycle_env)
    (fuel : Nat) (m : model_t) (hf : 1 ≤ fuel)
    (huart : ∀ n size, env.uart_fifo_fill n size = size) (r : tx_result)
    (hr : (model_thread_cycle k dt c env fuel m).tx = some r) :
    r.status = tx_status.done ∧
    ∃ p, (model_thread_cycle k dt c env fuel m).assembled = some p ∧ r.sent = packet_bytes p := by
  have hsome : (model_thread_cycle k dt c env fuel m).tx.isSome = true := by simp [hr]
  obtain ⟨hs, hq, ht⟩ := (cycle_tx_isSome k dt c env fuel m).1 hsome
  rw [cycle_tx k dt c env fuel m hs hq ht] at hr ⊢
  simp only [Option.some.injEq] at hr
  have hdone := (tx_loop_accepts_all env.uart_fifo_fill huart
    (assemble c (cycle_head k dt env m)).auto_stop
    (packet_bytes (assemble c (cycle_head k dt env m)).packet) fuel hf).1
  have hlen := packet_bytes_length (assemble c (cycle_head k dt env m)).packet
  have hpre := tx_loop_prefix env.uart_fifo_fill
    (fun n size h => by rw [huart n size]; exact ⟨h, le_refl size⟩)
    (assemble c (cycle_head k dt env m)).auto_stop
    (packet_bytes (assemble c (cycle_head k dt env m)).packet) hlen fuel 0 0 0 (by decide)
  simp only [Nat.cast_zero, List.take_zero] at hpre
  rw [hr] at hpre hdone
  obtain ⟨h1, h2⟩ := hpre
  rw [h2 hdone, Int.toNat_ofNat, ← hlen, List.take_length] at h1
  exact ⟨hdone, _, rfl, h1⟩

/-! ## C4 -/

/-- C4. With a `uart_fifo_fill` that always returns 0. First, for the write
loop of model.c:244-256 reached in any state whose `auto_stop` flag is true and
with any packet image: as long as at most 100 calls have been made the loop is
still running, nothing has been sent and the state is untouched; once 101
calls have been made (the first failed write and 100 retries) the loop has been
left through `break` with `stop_timer` 101, nothing sent, and
`start_snooper(false)` has set the start flag to false. Second, for a whole
iteration of `model_thread` that starts with `auto_stop` true, enters the write
loop and whose take, if it makes one, moves at most `PD_SAMPLES` bytes (so the
flag is still true when the loop is reached): the same holds of the
iteration, the start flag being true up to 100 calls and false from 101
on. -/
theorem auto_stop_after_101_calls (k : mask_h) (dt : dt_props) (c : crc32_h)
    (uart : Nat → Int → Int) (hstall : ∀ n size, uart n size = 0) :
    (∀ (m5 : model_t) (img : List Nat), m5.auto_stop = true →
      (∀ fuel, fuel ≤ 100 →
        (tx_loop uart m5.auto_stop img fuel 0 0 0 []).status = tx_status.pending ∧
        (tx_loop uart m5.auto_stop img fuel 0 0 0 []).calls = fuel ∧
        (tx_loop uart m5.auto_stop img fuel 0 0 0 []).sent = [] ∧
        tx_finish k (tx_loop uart m5.auto_stop img fuel 0 0 0 []).status m5 = m5) ∧
      (∀ fuel, 101 ≤ fuel →
        (tx_loop uart m5.auto_stop img fuel 0 0 0 []).status = tx_status.aborted ∧
        (tx_loop uart m5.auto_stop img fuel 0 0 0 []).calls = 101 ∧
        (tx_loop uart m5.auto_stop img fuel 0 0 0 []).stop_timer = 101 ∧
        (tx_loop uart m5.auto_stop img fuel 0 0 0 []).sent = [] ∧
        (tx_finish k (tx_loop uart m5.auto_stop img fuel 0 0 0 []).status m5).start = false)) ∧
    (∀ (env : cycle_env) (m : model_t), env.uart_fifo_fill = uart → m.auto_stop = true →
      (m.mw ≠ m.mr → m.mod_size m.mr ≤ PD_SAMPLES) →
      (model_thread_cycle k dt c env 0 m).tx.isSome = true →
      (∀ fuel, fuel ≤ 100 →
        ∃ r, (model_thread_cycle k dt c env fuel m).tx = some r ∧
          r.status = tx_status.pending ∧ r.calls = fuel ∧ r.sent = [] ∧
          (model_thread_cycle k dt c env fuel m).m.start = true) ∧
      (∀ fuel, 101 ≤ fuel →
        ∃ r, (model_thread_cycle k dt c env fuel m).tx = some r ∧
          r.status = tx_status.aborted ∧ r.calls = 101 ∧ r.stop_timer = 101 ∧ r.sent = [] ∧
          (model_thread_cycle k dt c env fuel m).m.start = false)) := by
  refine ⟨fun m5 img hauto => write_loop_stalled k uart hstall m5 img hauto, ?_⟩
  intro env m henv hauto hcap htx
  exact cycle_stalled_run k dt c env m hauto hcap (by rw [henv]; exact hstall) htx

/-- The booted sample snooper (continuous output, auto-stop on, empty ring)
with a UART that accepts nothing: instance of `auto_stop_after_101_calls`. -/
theorem auto_stop_after_101_calls_witness :
    (∀ n size, uart_stalled n size = 0) ∧
    sample_booted.auto_stop = true ∧
    (sample_booted.mw ≠ sample_booted.mr →
      sample_booted.mod_size sample_booted.mr ≤ PD_SAMPLES) ∧
    (model_thread_cycle sample_masks sample_dt sample_crc (sample_env 0 0 uart_stalled) 0
      sample_booted).tx.isSome = true ∧
    (∃ r, (model_thread_cycle sample_masks sample_dt sample_crc (sample_env 0 0 uart_stalled) 101
        sample_booted).tx = some r ∧
      r.status = tx_status.aborted ∧ r.calls = 101 ∧ r.stop_timer = 101 ∧ r.sent = [] ∧
      (model_thread_cycle sample_masks sample_dt sample_crc (sample_env 0 0 uart_stalled) 101
        sample_booted).m.start = false) :=
  ⟨fun _ _ => rfl, by decide, by decide, by decide,
   (((auto_stop_after_101_calls sample_masks sample_dt sample_crc uart_stalled
      (fun _ _ => rfl)).2 (sample_env 0 0 uart_stalled) sample_booted rfl (by decide)
      (by decide) (by decide)).2 101 (le_refl _))⟩

/-! ## C5 -/

/-- C5. For every iteration of `model_thread` and every UART whose answer to an
offer of `size` bytes lies between 0 and `size`: if the write loop is left
through its condition, the bytes the UART accepted, in order, are the 20 header
bytes, the 488 payload bytes and the 4 trailer bytes of the packet as it stood
when the integrity code was stored, and the trailer is that code: the result
of `crc32_init`, `crc32_hash`, `crc32_result` over the 508 header and payload
bytes of the same packet. -/
theorem transmitted_record_carries_crc (k : mask_h) (dt : dt_props) (c : crc32_h)
    (env : cycle_env) (fuel : Nat) (m : model_t)
    (huart : ∀ n size, 0 ≤ size →
      0 ≤ env.uart_fifo_fill n size ∧ env.uart_fifo_fill n size ≤ size)
    (p : packet_t) (r : tx_result)
    (hp : (model_thread_cycle k dt c env fuel m).assembled = some p)
    (hr : (model_thread_cycle k dt c env fuel m).tx = some r)
    (hdone : r.status = tx_status.done) :
    r.sent = header_bytes p.header ++ data_bytes p.data
      ++ le32 (c.crc32_result (c.crc32_hash c.crc32_init
          (header_bytes p.header ++ data_bytes p.data)) % 2 ^ 32) ∧
    (header_bytes p.header).length = PACKET_HEADER_LEN ∧
    (data_bytes p.data).length = PD_SAMPLES ∧
    (le32 (c.crc32_result (c.crc32_hash c.crc32_init
          (header_bytes p.header ++ data_bytes p.data)) % 2 ^ 32)).length = CRC_LEN := by
  have hsome : (model_thread_cycle k dt c env fuel m).tx.isSome = true := by simp [hr]
  obtain ⟨hs, hq, ht⟩ := (cycle_tx_isSome k dt c env fuel m).1 hsome
  rw [cycle_tx k dt c env fuel m hs hq ht] at hp hr
  simp only [Option.some.injEq] at hp hr
  subst hp
  have hlen := packet_bytes_length (assemble c (cycle_head k dt env m)).packet
  have hpre := tx_loop_prefix env.uart_fifo_fill huart
    (assemble c (cycle_head k dt env m)).auto_stop
    (packet_bytes (assemble c (cycle_head k dt env m)).packet) hlen fuel 0 0 0 (by decide)
  simp only [Nat.cast_zero, List.take_zero] at hpre
  rw [hr] at hpre
  obtain ⟨h1, h2⟩ := hpre
  rw [h2 hdone] at h1
  rw [Int.toNat_ofNat, ← hlen, List.take_length] at h1
  refine ⟨?_, by simp [header_bytes, le16, le32, PACKET_HEADER_LEN], by simp [data_bytes],
    by simp [le32, CRC_LEN]⟩
  rw [h1]
  have hcrc : (assemble c (cycle_head k dt env m)).packet.crc
      = c.crc32_result (c.crc32_hash c.crc32_init
          (header_bytes (assemble c (cycle_head k dt env m)).packet.header
            ++ data_bytes (assemble c (cycle_head k dt env m)).packet.data)) % 2 ^ 32 := by
    simp only [assemble, store_crc, packet_crc, packet_bytes_take_508]
  rw [packet_bytes, hcrc]

/-- The loaded sample snooper with a UART that accepts everything: instance of
`transmitted_record_carries_crc`. -/
theorem transmitted_record_carries_crc_witness :
    (tx_loop uart_accepts_all true
        (packet_bytes (assemble sample_crc (cycle_head sample_masks sample_dt
          (sample_env 0 0 uart_accepts_all) sample_loaded)).packet) 1 0 0 0 []).status
      = tx_status.done ∧
    (tx_loop uart_accepts_all true
        (packet_bytes (assemble sample_crc (cycle_head sample_masks sample_dt
          (sample_env 0 0 uart_accepts_all) sample_loaded)).packet) 1 0 0 0 []).sent
      = header_bytes (assemble sample_crc (cycle_head sample_masks sample_dt
          (sample_env 0 0 uart_accepts_all) sample_loaded)).packet.header
        ++ data_bytes (assemble sample_crc (cycle_head sample_masks sample_dt
          (sample_env 0 0 uart_accepts_all) sample_loaded)).packet.data
        ++ le32 (sample_crc.crc32_result (sample_crc.crc32_hash sample_crc.crc32_init
          (header_bytes (assemble sample_crc (cycle_head sample_masks sample_dt
              (sample_env 0 0 uart_accepts_all) sample_loaded)).packet.header
            ++ data_bytes (assemble sample_crc (cycle_head sample_masks sample_dt
              (sample_env 0 0 uart_accepts_all) sample_loaded)).packet.data)) % 2 ^ 32) :=
  ⟨by decide,
   (transmitted_record_carries_crc sample_masks sample_dt sample_crc
      (sample_env 0 0 uart_accepts_all) 1 sample_loaded
      (fun _ size h => ⟨h, le_refl size⟩)
      (assemble sample_crc (cycle_head sample_masks sample_dt
          (sample_env 0 0 uart_accepts_all) sample_loaded)).packet
      (tx_loop uart_accepts_all true
        (packet_bytes (assemble sample_crc (cycle_head sample_masks sample_dt
          (sample_env 0 0 uart_accepts_all) sample_loaded)).packet) 1 0 0 0 [])
      rfl rfl (by decide)).1⟩

/-! ## C6 -/

/-- C6 (as amended). On an iteration that refreshes telemetry (the incremented
sequence number is a multiple of 10) and finds the line-A (CC1) value strictly
between 500 and 2000, the consumer selects CC1 as the capture pin when the
snoop mask contains the CC1 bit and CC2 otherwise: line A when the line to
view is A, line B when the line to view is B. In both cases it reports line A
as the connected line and sets `pd_line` to 1. -/
theorem line_detection_follows_view (k : mask_h) (dt : dt_props) (c : crc32_h)
    (env : cycle_env) (fuel : Nat) (m : model_t)
    (hA : k.CC1_CHANNEL_BIT ≠ 0) (hAB : k.CC2_CHANNEL_BIT &&& k.CC1_CHANNEL_BIT = 0)
    (hs : m.start = true)
    (hseq : (m.packet.header.sequence + 1) % 2 ^ 32 % 10 = 0)
    (hwin : CC_VOLTAGE_LOW < (meas_cc1_v env.adc_cc1_v m.cc1_v).2 ∧
      (meas_cc1_v env.adc_cc1_v m.cc1_v).2 < CC_VOLTAGE_HIGH) :
    (model_thread_cycle k dt c env fuel m).m.ucpd_ccpin
      = (if m.view_snoop &&& k.CC1_CHANNEL_BIT ≠ 0 then ccpin_t.LL_UCPD_CCPIN_CC1
         else ccpin_t.LL_UCPD_CCPIN_CC2) ∧
    (m.view_snoop = k.CC1_CHANNEL_BIT →
      (model_thread_cycle k dt c env fuel m).m.ucpd_ccpin = ccpin_t.LL_UCPD_CCPIN_CC1) ∧
    (m.view_snoop = k.CC2_CHANNEL_BIT →
      (model_thread_cycle k dt c env fuel m).m.ucpd_ccpin = ccpin_t.LL_UCPD_CCPIN_CC2) ∧
    (model_thread_cycle k dt c env fuel m).m.view_connection = k.CC1_CHANNEL_BIT ∧
    (model_thread_cycle k dt c env fuel m).m.pd_line = 1 := by
  obtain ⟨f1, f2, f3⟩ := cycle_line_fields k dt c env fuel m hs
  have hseq' : (set_sequence ((m.packet.header.sequence + 1) % 2 ^ 32) m).packet.header.sequence
      % 10 = 0 := hseq
  have hw : (meas_cc1_v env.adc_cc1_v
        (set_sequence ((m.packet.header.sequence + 1) % 2 ^ 32) m).cc1_v).2 < CC_VOLTAGE_HIGH ∧
      (meas_cc1_v env.adc_cc1_v
        (set_sequence ((m.packet.header.sequence + 1) % 2 ^ 32) m).cc1_v).2 > CC_VOLTAGE_LOW :=
    ⟨hwin.2, hwin.1⟩
  have hhead : cycle_head k dt env m
      = telemetry k dt env (set_sequence ((m.packet.header.sequence + 1) % 2 ^ 32) m) := by
    simp only [cycle_head]
    rw [if_pos hseq']
  have hpin : (cycle_head k dt env m).ucpd_ccpin
      = (if m.view_snoop &&& k.CC1_CHANNEL_BIT ≠ 0 then ccpin_t.LL_UCPD_CCPIN_CC1
         else ccpin_t.LL_UCPD_CCPIN_CC2) := by
    rw [hhead]
    simp only [telemetry]
    rw [if_pos hw]
    rfl
  have hconn : (cycle_head k dt env m).view_connection = k.CC1_CHANNEL_BIT := by
    rw [hhead]
    simp only [telemetry]
    rw [if_pos hw]
  have hline : (cycle_head k dt env m).pd_line = 1 := by
    rw [hhead]
    simp only [telemetry]
    rw [if_pos hw]
  rw [f1, f2, f3, hpin]
  refine ⟨rfl, ?_, ?_, hconn, hline⟩
  · intro hv
    rw [hv, Nat.and_self, if_pos hA]
  · intro hv
    rw [hv, hAB]
    simp

/-- Line A reads 1000, line B reads 0, the tenth iteration, the line to view
set to A: instance of `line_detection_follows_view`. -/
theorem line_detection_follows_view_witness :
    sample_masks.CC1_CHANNEL_BIT ≠ 0 ∧
    sample_masks.CC2_CHANNEL_BIT &&& sample_masks.CC1_CHANNEL_BIT = 0 ∧
    (view_set_snoop sample_masks.CC1_CHANNEL_BIT (set_sequence 9 sample_running)).start = true ∧
    ((view_set_snoop sample_masks.CC1_CHANNEL_BIT
        (set_sequence 9 sample_running)).packet.header.sequence + 1) % 2 ^ 32 % 10 = 0 ∧
    (CC_VOLTAGE_LOW < (meas_cc1_v (sample_env 1000 0 uart_accepts_all).adc_cc1_v
        (view_set_snoop sample_masks.CC1_CHANNEL_BIT (set_sequence 9 sample_running)).cc1_v).2 ∧
      (meas_cc1_v (sample_env 1000 0 uart_accepts_all).adc_cc1_v
        (view_set_snoop sample_masks.CC1_CHANNEL_BIT (set_sequence 9 sample_running)).cc1_v).2
        < CC_VOLTAGE_HIGH) ∧
    (model_thread_cycle sample_masks sample_dt sample_crc (sample_env 1000 0 uart_accepts_all) 1
      (view_set_snoop sample_masks.CC1_CHANNEL_BIT
        (set_sequence 9 sample_running))).m.view_connection = sample_masks.CC1_CHANNEL_BIT :=
  ⟨by decide, by decide, by decide, by decide, by decide,
   (line_detection_follows_view sample_masks sample_dt sample_crc
      (sample_env 1000 0 uart_accepts_all) 1
      (view_set_snoop sample_masks.CC1_CHANNEL_BIT (set_sequence 9 sample_running))
      (by decide) (by decide) (by decide) (by decide) (by decide)).2.2.2.1⟩

/-- C6 (as stated) fails. Line A reads 1000, line B reads 0, on the tenth
iteration. With the line to view set to A the consumer selects CC1 (the claim
says CC2); with the line to view set to B it selects CC2 (the claim says
CC1). -/
theorem line_detection_selects_viewed_line :
    (model_thread_cycle sample_masks sample_dt sample_crc (sample_env 1000 0 uart_accepts_all) 1
      (view_set_snoop sample_masks.CC1_CHANNEL_BIT
        (set_sequence 9 sample_running))).m.ucpd_ccpin = ccpin_t.LL_UCPD_CCPIN_CC1 ∧
    (model_thread_cycle sample_masks sample_dt sample_crc (sample_env 1000 0 uart_accepts_all) 1
      (view_set_snoop sample_masks.CC2_CHANNEL_BIT
        (set_sequence 9 sample_running))).m.ucpd_ccpin = ccpin_t.LL_UCPD_CCPIN_CC2 := by
  constructor <;> decide

/-! ## C7 -/

/-- C7. In every iteration of `model_thread` that starts with read index equal
to write index (whatever the UART does and however long its write loop is
followed), no capture is taken and the read index, the write index and every
ring slot (bytes, length, tag) are as before; in every state the snooper can
reach, the payload length is 0 in the packet the iteration assembles and 0
after it. -/
theorem empty_take_is_noop (k : mask_h) (dt : dt_props) (c : crc32_h) (env : cycle_env)
    (fuel : Nat) (m : model_t) (h : m.mw = m.mr) :
    (model_thread_cycle k dt c env fuel m).took = false ∧
    (model_thread_cycle k dt c env fuel m).m.mr = m.mr ∧
    (model_thread_cycle k dt c env fuel m).m.mw = m.mw ∧
    (model_thread_cycle k dt c env fuel m).m.mod_buff = m.mod_buff ∧
    (model_thread_cycle k dt c env fuel m).m.mod_size = m.mod_size ∧
    (model_thread_cycle k dt c env fuel m).m.sop = m.sop ∧
    (reachable k dt c m →
      (∀ p, (model_thread_cycle k dt c env fuel m).assembled = some p → p.header.data_len = 0) ∧
      (model_thread_cycle k dt c env fuel m).m.packet.header.data_len = 0) := by
  obtain ⟨h1, h2, h3, h4, h5, h6, h7⟩ := cycle_empty_ring k dt c env fuel m h
  exact ⟨h1, h2, h3, h4, h5, h6, fun hr => h7 (reachable_data_len k dt c m hr)⟩

/-- The booted sample snooper with a UART that accepts everything: instance of
`empty_take_is_noop`. -/
theorem empty_take_is_noop_witness :
    sample_booted.mw = sample_booted.mr ∧
    (model_thread_cycle sample_masks sample_dt sample_crc (sample_env 0 0 uart_accepts_all) 1
      sample_booted).took = false ∧
    (model_thread_cycle sample_masks sample_dt sample_crc (sample_env 0 0 uart_accepts_all) 1
      sample_booted).m.mr = sample_booted.mr :=
  ⟨by decide,
   (empty_take_is_noop sample_masks sample_dt sample_crc (sample_env 0 0 uart_accepts_all) 1
      sample_booted (by decide)).1,
   (empty_take_is_noop sample_masks sample_dt sample_crc (sample_env 0 0 uart_accepts_all) 1
      sample_booted (by decide)).2.1⟩

/-! ## C8 -/

/-- C8. `reset_snooper`, from any prior state, leaves each of the 40 ring
slots with length 0, an all-zero tag and all 488 payload bytes 0, sets read
index and write index to 0 (so the take that follows finds the ring empty and
changes nothing) and sets the packet sequence number to 0. -/
theorem reset_snooper_clears_ring (m : model_t) :
    (∀ i, i < MOD_BUFFERS →
      (reset_snooper m).mod_size i = 0 ∧
      (reset_snooper m).sop i = packet_type_zero ∧
      ∀ j, j < PD_SAMPLES → (reset_snooper m).mod_buff i j = 0) ∧
    (reset_snooper m).mr = 0 ∧
    (reset_snooper m).mw = 0 ∧
    ring_take (reset_snooper m) = reset_snooper m ∧
    (reset_snooper m).packet.header.sequence = 0 := by
  refine ⟨?_, rfl, rfl, ring_take_empty _ rfl, rfl⟩
  intro i hi
  refine ⟨?_, ?_, ?_⟩
  · simp [reset_snooper, set_sequence, hi]
  · simp [reset_snooper, set_sequence, hi]
  · intro j hj
    simp [reset_snooper, set_sequence, hi, hj]

/-! ## C9 -/

/-- C9 (as amended). In every state the snooper can reach, following the write
loop for at least one call: after `set_empty_print(false)` an assembling
iteration enters the write loop if and only if it took a capture whose
recorded length is not 0; after `set_empty_print(true)` every assembling
iteration enters the write loop. In either mode an iteration that enters the
write loop calls `uart_fifo_fill` at least once; with a UART that accepts
every byte it is offered the loop runs to its end having sent the 512 bytes of
the assembled packet, and with a UART that accepts nothing no byte is sent. -/
theorem output_mode_gates_on_length (k : mask_h) (dt : dt_props) (c : crc32_h)
    (env : cycle_env) (fuel : Nat) (m : model_t) (hr : reachable k dt c m) (hf : 1 ≤ fuel) :
    ((model_thread_cycle k dt c env fuel (set_empty_print false m)).assembled.isSome = true →
      ((model_thread_cycle k dt c env fuel (set_empty_print false m)).tx.isSome = true ↔
        ((model_thread_cycle k dt c env fuel (set_empty_print false m)).took = true ∧
          m.mod_size m.mr ≠ 0))) ∧
    ((model_thread_cycle k dt c env fuel (set_empty_print true m)).assembled.isSome = true →
      (model_thread_cycle k dt c env fuel (set_empty_print true m)).tx.isSome = true) ∧
    (∀ (e : Bool) (r : tx_result),
      (model_thread_cycle k dt c env fuel (set_empty_print e m)).tx = some r → 1 ≤ r.calls) ∧
    (∀ (e : Bool) (r : tx_result), (∀ n size, env.uart_fifo_fill n size = size) →
      (model_thread_cycle k dt c env fuel (set_empty_print e m)).tx = some r →
      r.status = tx_status.done ∧
      ∃ p, (model_thread_cycle k dt c env fuel (set_empty_print e m)).assembled = some p ∧
        r.sent = packet_bytes p) ∧
    (∀ (e : Bool) (r : tx_result), (∀ n size, env.uart_fifo_fill n size = 0) →
      (model_thread_cycle k dt c env fuel (set_empty_print e m)).tx = some r → r.sent = []) := by
  have h0 : m.packet.header.data_len = 0 := reachable_data_len k dt c m hr
  refine ⟨?_, ?_, ?_, ?_, ?_⟩
  · intro ha
    obtain ⟨hs, hq⟩ := (cycle_assembled_isSome k dt c env fuel _).1 ha
    have hep : (assemble c (cycle_head k dt env (set_empty_print false m))).empty_print
        = false := by simp [set_empty_print]
    by_cases hne : (cycle_head k dt env (set_empty_print false m)).mw
        ≠ (cycle_head k dt env (set_empty_print false m)).mr
    · obtain ⟨-, a2, -, -⟩ := assemble_take c _ hne
      simp only [cycle_head_mod_size, cycle_head_mr] at a2
      have a2' : (assemble c (cycle_head k dt env (set_empty_print false m))).packet.header.data_len
          = m.mod_size m.mr := a2
      by_cases hz : m.mod_size m.mr = 0
      · have ht : ¬ ((assemble c (cycle_head k dt env (set_empty_print false m))).empty_print
            = true ∨
            (assemble c (cycle_head k dt env (set_empty_print false m))).packet.header.data_len
              ≠ 0) := by
          rw [hep, a2', hz]; simp
        rw [cycle_quiet k dt c env fuel _ hs hq ht]
        simp [hz]
      · have ht : (assemble c (cycle_head k dt env (set_empty_print false m))).empty_print
            = true ∨
            (assemble c (cycle_head k dt env (set_empty_print false m))).packet.header.data_len
              ≠ 0 := by
          right; rw [a2']; exact hz
        rw [cycle_tx k dt c env fuel _ hs hq ht]
        simp only [Option.isSome_some, true_iff, decide_eq_true_eq]
        exact ⟨hne, hz⟩
    · have heq : (cycle_head k dt env (set_empty_print false m)).mw
          = (cycle_head k dt env (set_empty_print false m)).mr := not_not.1 hne
      obtain ⟨-, -, -, -, a5, -⟩ := assemble_empty c _ heq
      rw [cycle_head_data_len] at a5
      have a5' : (assemble c (cycle_head k dt env (set_empty_print false m))).packet.header.data_len
          = 0 := by rw [a5]; exact h0
      have ht : ¬ ((assemble c (cycle_head k dt env (set_empty_print false m))).empty_print
          = true ∨
          (assemble c (cycle_head k dt env (set_empty_print false m))).packet.header.data_len
            ≠ 0) := by
        rw [hep, a5']; simp
      rw [cycle_quiet k dt c env fuel _ hs hq ht]
      simp only [Option.isSome_none, Bool.false_eq_true, false_iff, decide_eq_true_eq]
      exact fun hc => hne hc.1
  · intro ha
    obtain ⟨hs, hq⟩ := (cycle_assembled_isSome k dt c env fuel _).1 ha
    rw [cycle_tx_isSome]
    refine ⟨hs, hq, Or.inl ?_⟩
    simp [set_empty_print]
  · intro e r hr'
    have hsome : (model_thread_cycle k dt c env fuel (set_empty_print e m)).tx.isSome = true := by
      simp [hr']
    obtain ⟨hs, hq, ht⟩ := (cycle_tx_isSome k dt c env fuel _).1 hsome
    rw [cycle_tx k dt c env fuel _ hs hq ht] at hr'
    simp only [Option.some.injEq] at hr'
    rw [← hr']
    exact tx_loop_calls_pos _ _ _ fuel hf
  · intro e r huart hr'
    exact cycle_accepting_sends k dt c env fuel _ hf huart r hr'
  · intro e r hstall hr'
    have hsome : (model_thread_cycle k dt c env fuel (set_empty_print e m)).tx.isSome = true := by
      simp [hr']
    obtain ⟨hs, hq, ht⟩ := (cycle_tx_isSome k dt c env fuel _).1 hsome
    rw [cycle_tx k dt c env fuel _ hs hq ht] at hr'
    simp only [Option.some.injEq] at hr'
    rw [← hr']
    exact tx_loop_stalled_sent env.uart_fifo_fill hstall _ _ fuel 0 0 0 []

/-- The booted sample snooper after one capture of length 12, with a UART that
accepts everything: instance of `output_mode_gates_on_length`. -/
theorem output_mode_gates_on_length_witness :
    reachable sample_masks sample_dt sample_crc (receive (sample_event 12) sample_booted) ∧
    ((model_thread_cycle sample_masks sample_dt sample_crc (sample_env 0 0 uart_accepts_all) 1
        (set_empty_print false (receive (sample_event 12) sample_booted))).tx.isSome = true ↔
      ((model_thread_cycle sample_masks sample_dt sample_crc (sample_env 0 0 uart_accepts_all) 1
          (set_empty_print false (receive (sample_event 12) sample_booted))).took = true ∧
        (receive (sample_event 12) sample_booted).mod_size
          (receive (sample_event 12) sample_booted).mr ≠ 0)) ∧
    (∀ r, (model_thread_cycle sample_masks sample_dt sample_crc (sample_env 0 0 uart_accepts_all)
        1 (set_empty_print false (receive (sample_event 12) sample_booted))).tx = some r →
      1 ≤ r.calls) :=
  ⟨reachable.isr _ _ (reachable.dma _ _ (reachable.start true _ (reachable.init true))),
   (output_mode_gates_on_length sample_masks sample_dt sample_crc
      (sample_env 0 0 uart_accepts_all) 1 (receive (sample_event 12) sample_booted)
      (reachable.isr _ _ (reachable.dma _ _ (reachable.start true _ (reachable.init true))))
      (le_refl 1)).1 (by decide),
   (output_mode_gates_on_length sample_masks sample_dt sample_crc
      (sample_env 0 0 uart_accepts_all) 1 (receive (sample_event 12) sample_booted)
      (reachable.isr _ _ (reachable.dma _ _ (reachable.start true _ (reachable.init true))))
      (le_refl 1)).2.2.1 false⟩

/-- C9 (as stated) fails. In pd-only mode, with one capture of recorded length 0
waiting in the ring, the iteration assembles a packet and takes the capture
from the ring, and does not enter the write loop. In pd-only mode, with one
capture of recorded length 12 waiting, auto-stop on and a UART that accepts
nothing, the iteration takes the capture and enters the write loop, which is
left through `break` after 101 calls with no byte sent. -/
theorem output_mode_skips_zero_length_capture :
    (model_thread_cycle sample_masks sample_dt sample_crc (sample_env 0 0 uart_accepts_all) 1
      (set_empty_print false (receive (sample_event 0) sample_booted))).assembled.isSome
      = true ∧
    (model_thread_cycle sample_masks sample_dt sample_crc (sample_env 0 0 uart_accepts_all) 1
      (set_empty_print false (receive (sample_event 0) sample_booted))).took = true ∧
    (model_thread_cycle sample_masks sample_dt sample_crc (sample_env 0 0 uart_accepts_all) 1
      (set_empty_print false (receive (sample_event 0) sample_booted))).tx.isSome = false ∧
    (model_thread_cycle sample_masks sample_dt sample_crc (sample_env 0 0 uart_stalled) 101
      (set_empty_print false (receive (sample_event 12) sample_booted))).took = true ∧
    (∃ r, (model_thread_cycle sample_masks sample_dt sample_crc (sample_env 0 0 uart_stalled) 101
        (set_empty_print false (receive (sample_event 12) sample_booted))).tx = some r ∧
      r.status = tx_status.aborted ∧ r.calls = 101 ∧ r.sent = []) := by
  refine ⟨by decide, by decide, by decide, by decide, ?_⟩
  obtain ⟨r, h1, h2, h3, -, h5, -⟩ :=
    (cycle_stalled_run sample_masks sample_dt sample_crc (sample_env 0 0 uart_stalled)
      (set_empty_print false (receive (sample_event 12) sample_booted))
      (by decide) (by decide) (fun _ _ => rfl) (by decide)).2 101 (le_refl _)
  exact ⟨r, h1, h2, h3, h5⟩

/-! ## C10 -/

/-- C10 (as amended). For each of the five measurement operations, when the
ADC read fails the operation returns that error and leaves the caller's value
unchanged; hence on a telemetry refresh the consumer's value for that channel,
and the header field copied from it, keep the previous value. -/
theorem meas_read_failure_keeps_value (k : mask_h) (dt : dt_props) (a : adc_chan) (v : Int)
    (h : a.read_ret ≠ 0) :
    meas_vbus_v dt a v = (a.read_ret, v) ∧
    meas_vbus_c dt a v = (a.read_ret, v) ∧
    meas_cc1_v a v = (a.read_ret, v) ∧
    meas_cc2_v a v = (a.read_ret, v) ∧
    meas_vcon_c dt a v = (a.read_ret, v) ∧
    (∀ (env : cycle_env) (m : model_t), env.adc_vbus_v = a →
      (telemetry k dt env m).vbus_v = m.vbus_v ∧
      (header_telemetry (telemetry k dt env m)).packet.header.vbus_voltage = to_u16 m.vbus_v) ∧
    (∀ (env : cycle_env) (m : model_t), env.adc_vbus_c = a →
      (telemetry k dt env m).vbus_c = m.vbus_c ∧
      (header_telemetry (telemetry k dt env m)).packet.header.vbus_current = to_u16 m.vbus_c) ∧
    (∀ (env : cycle_env) (m : model_t), env.adc_cc1_v = a →
      (telemetry k dt env m).cc1_v = m.cc1_v ∧
      (header_telemetry (telemetry k dt env m)).packet.header.cc1_voltage = to_u16 m.cc1_v) ∧
    (∀ (env : cycle_env) (m : model_t), env.adc_cc2_v = a →
      (telemetry k dt env m).cc2_v = m.cc2_v ∧
      (header_telemetry (telemetry k dt env m)).packet.header.cc2_voltage = to_u16 m.cc2_v) ∧
    (∀ (env : cycle_env) (m : model_t), env.adc_vcon_c = a →
      (telemetry k dt env m).vcon_c = m.vcon_c ∧
      (header_telemetry (telemetry k dt env m)).packet.header.vcon_current = to_u16 m.vcon_c) := by
  refine ⟨by simp [meas_vbus_v, h], by simp [meas_vbus_c, h], by simp [meas_cc1_v, h],
    by simp [meas_cc2_v, h], by simp [meas_vcon_c, h], ?_, ?_, ?_, ?_, ?_⟩
  · intro env m he
    subst he
    have hv : (telemetry k dt env m).vbus_v = m.vbus_v := by
      rw [telemetry_vbus_v]
      simp [meas_vbus_v, h]
    exact ⟨hv, by simp [header_telemetry, hv]⟩
  · intro env m he
    subst he
    have hv : (telemetry k dt env m).vbus_c = m.vbus_c := by
      rw [telemetry_vbus_c]
      simp [meas_vbus_c, h]
    exact ⟨hv, by simp [header_telemetry, hv]⟩
  · intro env m he
    subst he
    have hv : (telemetry k dt env m).cc1_v = m.cc1_v := by
      rw [telemetry_cc1_v]
      simp [meas_cc1_v, h]
    exact ⟨hv, by simp [header_telemetry, hv]⟩
  · intro env m he
    subst he
    have hv : (telemetry k dt env m).cc2_v = m.cc2_v := by
      rw [telemetry_cc2_v]
      simp [meas_cc2_v, h]
    exact ⟨hv, by simp [header_telemetry, hv]⟩
  · intro env m he
    subst he
    have hv : (telemetry k dt env m).vcon_c = m.vcon_c := by
      rw [telemetry_vcon_c]
      simp [meas_vcon_c, h]
    exact ⟨hv, by simp [header_telemetry, hv]⟩

/-- A failing ADC read with previous value 5: instance of
`meas_read_failure_keeps_value`. -/
theorem meas_read_failure_keeps_value_witness :
    adc_read_fails.read_ret ≠ 0 ∧
    meas_vbus_v sample_dt adc_read_fails 5 = (adc_read_fails.read_ret, 5) :=
  ⟨by decide, (meas_read_failure_keeps_value sample_masks sample_dt adc_read_fails 5
    (by decide)).1⟩

/-- C10 (as stated) fails. The caller passes 5; the ADC read succeeds with raw
sample 7 and the raw-to-millivolt conversion then fails with -134: each of the
five operations returns -134 with the caller's value replaced by 7. -/
theorem meas_conversion_failure_overwrites :
    meas_vbus_v sample_dt (adc_conv_fails 7) 5 = (-134, 7) ∧
    meas_vbus_c sample_dt (adc_conv_fails 7) 5 = (-134, 7) ∧
    meas_cc1_v (adc_conv_fails 7) 5 = (-134, 7) ∧
    meas_cc2_v (adc_conv_fails 7) 5 = (-134, 7) ∧
    meas_vcon_c sample_dt (adc_conv_fails 7) 5 = (-134, 7) := by
  decide

/-! ## C11 -/

/-- C11 (evaluation at the failing input). The ring holds one unread capture
(write index 1, read index 0, slot 0 tagged with ordered-set code 1) when
`ucpd_isr` handles a message-complete event with payload size 2 and ordered-set
code 2 on line `pd_line`. The slot at the old write index 1 gets length 2, the
line and partial 0, but its type stays 0; the code 2 is written over the type
of slot 0, the slot at the read index. -/
theorem isr_writes_type_at_read_index :
    (receive (sample_event 1) (reset_snooper model_zero)).mw = 1 ∧
    (receive (sample_event 1) (reset_snooper model_zero)).mr = 0 ∧
    ((receive (sample_event 1) (reset_snooper model_zero)).sop 0).type = 1 ∧
    (receive (sample_event 2) (receive (sample_event 1) (reset_snooper model_zero))).mod_size 1
      = 2 ∧
    ((receive (sample_event 2) (receive (sample_event 1) (reset_snooper model_zero))).sop 1).partial_bit
      = 0 ∧
    ((receive (sample_event 2) (receive (sample_event 1) (reset_snooper model_zero))).sop 1).type
      = 0 ∧
    ((receive (sample_event 2) (receive (sample_event 1) (reset_snooper model_zero))).sop 0).type
      = 2 := by
  refine ⟨by decide, by decide, by decide, by decide, by decide, by decide, by decide⟩

/-! ## C12 -/

/-- C12 (as amended). Every run of `ucpd_isr` adds one `k_wakeup` call when the
receive-error flag is raised and none otherwise: it wakes the consumer when it
handles a receive-error event, also when the message-complete flag is raised
with it, and does not wake it when it handles only a message-complete
event. -/
theorem isr_wakes_on_receive_error (hw : ucpd_hw) (m : model_t) :
    (ucpd_isr hw m).wakeups = m.wakeups + (if hw.RxErr = true then 1 else 0) := by
  cases h1 : hw.RxErr <;> cases h2 : hw.RxMsgEnd <;> simp [ucpd_isr, isr_store, h1, h2]

/-- C12 (as stated) fails. On the booted sample snooper (no wake-up so far) a
message-complete event leaves the number of `k_wakeup` calls at 0, and a
receive-error event raises it to 1. -/
theorem isr_wake_is_on_error_path :
    sample_booted.wakeups = 0 ∧
    (receive (sample_event 12) sample_booted).mw = 1 ∧
    (receive (sample_event 12) sample_booted).wakeups = 0 ∧
    (receive (sample_error_event 12) sample_booted).mw = 1 ∧
    (receive (sample_error_event 12) sample_booted).wakeups = 1 := by
  refine ⟨by decide, by decide, by decide, by decide, by decide⟩

/-! ## Supporting lemmas for the payload padding -/

theorem ucpd_isr_mod_size_le (hw : ucpd_hw) (m : model_t)
    (hcap : hw.RxPaySize % 65536 ≤ PD_SAMPLES) (h : ∀ i, m.mod_size i ≤ PD_SAMPLES) :
    ∀ i, (ucpd_isr hw m).mod_size i ≤ PD_SAMPLES := by
  intro i
  have hi := h i
  cases e1 : hw.RxErr <;> cases e2 : hw.RxMsgEnd <;>
    simp only [ucpd_isr, isr_store, e1, e2, Function.update_apply, if_true, if_false,
      Bool.false_eq_true] <;>
    (try split_ifs) <;> assumption

theorem assemble_mod_size_le (c : crc32_h) (m : model_t) (h : ∀ i, m.mod_size i ≤ PD_SAMPLES) :
    ∀ i, (assemble c m).mod_size i ≤ PD_SAMPLES := by
  intro i
  have hi := h i
  simp only [assemble, store_crc, ring_take, header_telemetry]
  split_ifs
  · simp only [Function.update_apply]
    split_ifs
    · exact Nat.zero_le _
    · exact hi
  · exact hi

theorem assemble_pad (c : crc32_h) (m : model_t) (hne : m.mw ≠ m.mr) (j : Nat)
    (hj : ¬ j < m.mod_size m.mr) : (assemble c m).packet.data j = m.packet.data j := by
  have h' : (header_telemetry m).mw ≠ (header_telemetry m).mr := hne
  simp only [assemble, store_crc, ring_take, h', ne_eq, not_false_eq_true, if_true]
  simp [header_telemetry, hj]

theorem cycle_assembled_eq (k : mask_h) (dt : dt_props) (c : crc32_h) (env : cycle_env)
    (fuel : Nat) (m : model_t) (p : packet_t)
    (hp : (model_thread_cycle k dt c env fuel m).assembled = some p) :
    p = (assemble c (cycle_head k dt env m)).packet := by
  have hsome : (model_thread_cycle k dt c env fuel m).assembled.isSome = true := by simp [hp]
  obtain ⟨hs, hq⟩ := (cycle_assembled_isSome k dt c env fuel m).1 hsome
  by_cases ht : (assemble c (cycle_head k dt env m)).empty_print = true ∨
      (assemble c (cycle_head k dt env m)).packet.header.data_len ≠ 0
  · rw [cycle_tx k dt c env fuel m hs hq ht] at hp
    simp only [Option.some.injEq] at hp
    exact hp.symm
  · rw [cycle_quiet k dt c env fuel m hs hq ht] at hp
    simp only [Option.some.injEq] at hp
    exact hp.symm

theorem assemble_padded (k : mask_h) (dt : dt_props) (c : crc32_h) (env : cycle_env)
    (m : model_t) (h0 : m.packet.header.data_len = 0)
    (hz : ∀ j, j < PD_SAMPLES → m.packet.data j = 0)
    (hsz : ∀ i, m.mod_size i ≤ PD_SAMPLES) :
    (assemble c (cycle_head k dt env m)).packet.header.data_len ≤ PD_SAMPLES ∧
    ∀ j, (assemble c (cycle_head k dt env m)).packet.header.data_len ≤ j → j < PD_SAMPLES →
      (assemble c (cycle_head k dt env m)).packet.data j = 0 := by
  by_cases hne : (cycle_head k dt env m).mw ≠ (cycle_head k dt env m).mr
  · obtain ⟨-, a2, -, -⟩ := assemble_take c _ hne
    rw [a2]
    simp only [cycle_head_mod_size, cycle_head_mr]
    refine ⟨hsz _, ?_⟩
    intro j hj hj'
    rw [assemble_pad c _ hne j (by simp only [cycle_head_mod_size, cycle_head_mr]; omega),
      cycle_head_data]
    exact hz j hj'
  · obtain ⟨-, -, -, -, a5, a6⟩ := assemble_empty c _ (not_not.1 hne)
    rw [a5, a6, cycle_head_data_len, cycle_head_data, h0]
    exact ⟨Nat.zero_le _, fun j _ hj' => hz j hj'⟩

theorem cycle_finished_payload (k : mask_h) (dt : dt_props) (c : crc32_h) (env : cycle_env)
    (fuel : Nat) (m : model_t) (hz : ∀ j, j < PD_SAMPLES → m.packet.data j = 0)
    (hfin : (model_thread_cycle k dt c env fuel m).finished = true) :
    ∀ j, j < PD_SAMPLES → (model_thread_cycle k dt c env fuel m).m.packet.data j = 0 := by
  intro j hj
  by_cases hs : m.start = true
  · by_cases hq : (cycle_head k dt env m).packet.header.sequence % 10 < 8
    · by_cases ht : (assemble c (cycle_head k dt env m)).empty_print = true ∨
          (assemble c (cycle_head k dt env m)).packet.header.data_len ≠ 0
      · rw [cycle_tx k dt c env fuel m hs hq ht] at hfin ⊢
        simp only [cycle_out.finished, decide_eq_true_eq] at hfin
        simp only
        cases hst : (tx_loop env.uart_fifo_fill (assemble c (cycle_head k dt env m)).auto_stop
          (packet_bytes (assemble c (cycle_head k dt env m)).packet) fuel 0 0 0 []).status
        · simp [tx_finish, packet_clear, hj]
        · simp [tx_finish, packet_clear, start_snooper, hj]
        · exact absurd hst hfin
      · rw [cycle_quiet k dt c env fuel m hs hq ht]
        simp [packet_clear, hj]
    · rw [cycle_skip k dt c env fuel m hs hq]
      simp only [cycle_head_data]
      exact hz j hj
  · rw [cycle_stopped k dt c env fuel m hs]
    exact hz j hj

theorem cycle_mod_size_le (k : mask_h) (dt : dt_props) (c : crc32_h) (env : cycle_env)
    (fuel : Nat) (m : model_t) (hsz : ∀ i, m.mod_size i ≤ PD_SAMPLES) :
    ∀ i, (model_thread_cycle k dt c env fuel m).m.mod_size i ≤ PD_SAMPLES := by
  intro i
  have hA : (assemble c (cycle_head k dt env m)).mod_size i ≤ PD_SAMPLES :=
    assemble_mod_size_le c _ (by simpa using hsz) i
  by_cases hs : m.start = true
  · by_cases hq : (cycle_head k dt env m).packet.header.sequence % 10 < 8
    · by_cases ht : (assemble c (cycle_head k dt env m)).empty_print = true ∨
          (assemble c (cycle_head k dt env m)).packet.header.data_len ≠ 0
      · rw [cycle_tx k dt c env fuel m hs hq ht]
        obtain ⟨-, -, -, f4, -⟩ :=
          tx_finish_ring k (tx_loop env.uart_fifo_fill
            (assemble c (cycle_head k dt env m)).auto_stop
            (packet_bytes (assemble c (cycle_head k dt env m)).packet) fuel 0 0 0 []).status
            (assemble c (cycle_head k dt env m))
        simp only [f4]
        exact hA
      · rw [cycle_quiet k dt c env fuel m hs hq ht]
        exact hA
    · rw [cycle_skip k dt c env fuel m hs hq]
      simp only [cycle_head_mod_size]
      exact hsz i
  · rw [cycle_stopped k dt c env fuel m hs]
    exact hsz i

theorem reachable_capped_inv (k : mask_h) (dt : dt_props) (c : crc32_h) (m : model_t)
    (h : reachable_capped k dt c m) :
    m.packet.header.data_len = 0 ∧ (∀ j, j < PD_SAMPLES → m.packet.data j = 0) ∧
    (∀ i, m.mod_size i ≤ PD_SAMPLES) := by
  induction h with
  | init ok =>
    cases ok <;> exact ⟨rfl, fun _ _ => rfl, fun _ => Nat.zero_le _⟩
  | dma buf m _ ih => exact ih
  | isr hw m _ hcap ih =>
    rw [ucpd_isr_packet]
    exact ⟨ih.1, ih.2.1, ucpd_isr_mod_size_le hw m hcap ih.2.2⟩
  | cycle env fuel m _ hfin ih =>
    exact ⟨cycle_finished_data_len k dt c env fuel m ih.1 hfin,
      cycle_finished_payload k dt c env fuel m ih.2.1 hfin,
      cycle_mod_size_le k dt c env fuel m ih.2.2⟩
  | reset m _ ih =>
    refine ⟨ih.1, ih.2.1, ?_⟩
    intro i
    simp only [reset_snooper, set_sequence]
    split_ifs
    · exact Nat.zero_le _
    · exact ih.2.2 i
  | start b m _ ih => cases b <;> exact ih
  | empty_print e m _ ih => exact ih
  | auto_stop b m _ ih => exact ih
  | sleep_time st m _ ih => exact ih
  | snoop mask m _ ih => exact ih

/-! ## C13 -/

/-- C13. In every state the snooper can reach while every capture put into the
ring has a recorded length of at most 488: the packet payload is all zero and
the payload length is 0 (the state at the start of a consumer iteration); in
every packet an iteration assembles, and so in every packet it hands to the
write loop, the payload length is at most 488 and every payload byte at an
index from the payload length up is 0; and when the write loop is left through
`break` on auto-stop, the payload is all zero and its length 0 afterwards. -/
theorem payload_zero_padded (k : mask_h) (dt : dt_props) (c : crc32_h) (m : model_t)
    (hr : reachable_capped k dt c m) :
    m.packet.header.data_len = 0 ∧
    (∀ j, j < PD_SAMPLES → m.packet.data j = 0) ∧
    (∀ env fuel p, (model_thread_cycle k dt c env fuel m).assembled = some p →
      p.header.data_len ≤ PD_SAMPLES ∧
      ∀ j, p.header.data_len ≤ j → j < PD_SAMPLES → p.data j = 0) ∧
    (∀ env fuel r, (model_thread_cycle k dt c env fuel m).tx = some r →
      ∃ p, (model_thread_cycle k dt c env fuel m).assembled = some p ∧
        r = tx_loop env.uart_fifo_fill m.auto_stop (packet_bytes p) fuel 0 0 0 [] ∧
        (r.status = tx_status.aborted →
          (model_thread_cycle k dt c env fuel m).m.packet.header.data_len = 0 ∧
          ∀ j, j < PD_SAMPLES → (model_thread_cycle k dt c env fuel m).m.packet.data j = 0)) := by
  obtain ⟨h0, hz, hsz⟩ := reachable_capped_inv k dt c m hr
  refine ⟨h0, hz, ?_, ?_⟩
  · intro env fuel p hp
    rw [cycle_assembled_eq k dt c env fuel m p hp]
    exact assemble_padded k dt c env m h0 hz hsz
  · intro env fuel r hr'
    have hsome : (model_thread_cycle k dt c env fuel m).tx.isSome = true := by simp [hr']
    obtain ⟨hs, hq, ht⟩ := (cycle_tx_isSome k dt c env fuel m).1 hsome
    have hfinish : r.status = tx_status.aborted →
        (model_thread_cycle k dt c env fuel m).finished = true := by
      intro hst
      simp [cycle_out.finished, hr', hst]
    have hc := cycle_tx k dt c env fuel m hs hq ht
    refine ⟨(assemble c (cycle_head k dt env m)).packet, by rw [hc], ?_, ?_⟩
    · rw [hc] at hr'
      simp only [Option.some.injEq, assemble_auto_stop, cycle_head_auto_stop] at hr'
      exact hr'.symm
    · intro hst
      exact ⟨cycle_finished_data_len k dt c env fuel m h0 (hfinish hst),
        cycle_finished_payload k dt c env fuel m hz (hfinish hst)⟩

/-- The booted sample snooper after one capture of length 12: instance of
`payload_zero_padded`. -/
theorem payload_zero_padded_witness :
    reachable_capped sample_masks sample_dt sample_crc (receive (sample_event 12) sample_booted) ∧
    (receive (sample_event 12) sample_booted).packet.header.data_len = 0 ∧
    (∀ env fuel p,
      (model_thread_cycle sample_masks sample_dt sample_crc env fuel
        (receive (sample_event 12) sample_booted)).assembled = some p →
      p.header.data_len ≤ PD_SAMPLES ∧
      ∀ j, p.header.data_len ≤ j → j < PD_SAMPLES → p.data j = 0) :=
  ⟨reachable_capped.isr _ _
      (reachable_capped.dma _ _ (reachable_capped.start true _ (reachable_capped.init true)))
      (by decide),
   (payload_zero_padded sample_masks sample_dt sample_crc (receive (sample_event 12) sample_booted)
      (reachable_capped.isr _ _
        (reachable_capped.dma _ _ (reachable_capped.start true _ (reachable_capped.init true)))
        (by decide))).1,
   (payload_zero_padded sample_masks sample_dt sample_crc (receive (sample_event 12) sample_booted)
      (reachable_capped.isr _ _
        (reachable_capped.dma _ _ (reachable_capped.start true _ (reachable_capped.init true)))
        (by decide))).2.2.1⟩

/-! ## Supporting lemmas for the ring indices -/

theorem isr_store_indices (err : Bool) (paysize ordset : Nat) (m : model_t)
    (h : m.mw < MOD_BUFFERS) :
    (isr_store err paysize ordset m).mw = (m.mw + 1) % MOD_BUFFERS ∧
    (isr_store err paysize ordset m).mr = m.mr :=
  ⟨ring_next_of_lt m.mw h, rfl⟩

theorem ucpd_isr_mr (hw : ucpd_hw) (m : model_t) : (ucpd_isr hw m).mr = m.mr := by
  cases h1 : hw.RxErr <;> cases h2 : hw.RxMsgEnd <;> simp [ucpd_isr, isr_store, h1, h2]

theorem ucpd_isr_mw_lt (hw : ucpd_hw) (m : model_t) (h : m.mw < MOD_BUFFERS) :
    (ucpd_isr hw m).mw < MOD_BUFFERS := by
  have h1 := ring_next_lt m.mw h
  have h2 := ring_next_lt _ h1
  cases e1 : hw.RxErr <;> cases e2 : hw.RxMsgEnd <;> simp [ucpd_isr, isr_store, e1, e2] <;>
    assumption

theorem cycle_ring_indices (k : mask_h) (dt : dt_props) (c : crc32_h) (env : cycle_env)
    (fuel : Nat) (m : model_t) :
    (model_thread_cycle k dt c env fuel m).m.mw = m.mw ∧
    (model_thread_cycle k dt c env fuel m).m.mr
      = (if (model_thread_cycle k dt c env fuel m).took = true then ring_next m.mr else m.mr) := by
  have hA : (assemble c (cycle_head k dt env m)).mr
      = (if m.mw ≠ m.mr then ring_next m.mr else m.mr) := by
    by_cases hne : m.mw ≠ m.mr
    · have hne' : (cycle_head k dt env m).mw ≠ (cycle_head k dt env m).mr := by simpa using hne
      rw [(assemble_take c _ hne').1, if_pos hne, cycle_head_mr]
    · have he : (cycle_head k dt env m).mw = (cycle_head k dt env m).mr := by
        simpa using not_not.1 hne
      rw [(assemble_empty c _ he).1, if_neg hne, cycle_head_mr]
  by_cases hs : m.start = true
  · by_cases hq : (cycle_head k dt env m).packet.header.sequence % 10 < 8
    · by_cases ht : (assemble c (cycle_head k dt env m)).empty_print = true ∨
          (assemble c (cycle_head k dt env m)).packet.header.data_len ≠ 0
      · rw [cycle_tx k dt c env fuel m hs hq ht]
        obtain ⟨f1, f2, -⟩ :=
          tx_finish_ring k (tx_loop env.uart_fifo_fill
            (assemble c (cycle_head k dt env m)).auto_stop
            (packet_bytes (assemble c (cycle_head k dt env m)).packet) fuel 0 0 0 []).status
            (assemble c (cycle_head k dt env m))
        refine ⟨?_, ?_⟩
        · simp only [f1, assemble_mw, cycle_head_mw]
        · simp only [f2, hA, cycle_head_mw, cycle_head_mr, decide_eq_true_eq]
      · rw [cycle_quiet k dt c env fuel m hs hq ht]
        refine ⟨?_, ?_⟩
        · simp only [packet_clear, assemble_mw, cycle_head_mw]
        · simp only [packet_clear, hA, cycle_head_mw, cycle_head_mr, decide_eq_true_eq]
    · rw [cycle_skip k dt c env fuel m hs hq]
      exact ⟨by simp, by simp⟩
  · rw [cycle_stopped k dt c env fuel m hs]
    exact ⟨rfl, by simp⟩

theorem ring_run_indices (k : mask_h) (dt : dt_props) (c : crc32_h) (m : model_t)
    (h : ring_run k dt c m) : m.mw < MOD_BUFFERS ∧ m.mr < MOD_BUFFERS := by
  induction h with
  | init ok m =>
    cases ok <;> exact ⟨(by decide : 0 < MOD_BUFFERS), (by decide : 0 < MOD_BUFFERS)⟩
  | reset m => exact ⟨(by decide : 0 < MOD_BUFFERS), (by decide : 0 < MOD_BUFFERS)⟩
  | dma buf m _ ih => exact ih
  | isr hw m _ ih => exact ⟨ucpd_isr_mw_lt hw m ih.1, by rw [ucpd_isr_mr]; exact ih.2⟩
  | cycle env fuel m _ ih =>
    obtain ⟨h1, h2⟩ := cycle_ring_indices k dt c env fuel m
    rw [h1, h2]
    refine ⟨ih.1, ?_⟩
    split_ifs
    · exact ring_next_lt _ ih.2
    · exact ih.2
  | start b m _ ih => cases b <;> exact ih
  | empty_print e m _ ih => exact ih
  | auto_stop b m _ ih => exact ih
  | sleep_time st m _ ih => exact ih
  | snoop mask m _ ih => exact ih

/-! ## C14 -/

/-- C14. In every state met from `model_init` or `reset_snooper` through any
interleaving of producer puts, consumer iterations, resets and control calls,
the read index and the write index are both below 40. From such a state each
put, on either path of `ucpd_isr`, sets the write index to `(mw + 1) % 40` and
leaves the read index; each take sets the read index to `(mr + 1) % 40` and
leaves the write index; a consumer iteration leaves the write index and moves
the read index by one take when it took and not at all otherwise. So the slot
indices used on `mod_buff`, `mod_size` and `sop` stay below 40. -/
theorem ring_indices_in_range (k : mask_h) (dt : dt_props) (c : crc32_h) (m : model_t)
    (h : ring_run k dt c m) :
    m.mw < MOD_BUFFERS ∧ m.mr < MOD_BUFFERS ∧
    (∀ err paysize ordset,
      (isr_store err paysize ordset m).mw = (m.mw + 1) % MOD_BUFFERS ∧
      (isr_store err paysize ordset m).mr = m.mr) ∧
    (∀ e, (receive e m).mw = (m.mw + 1) % MOD_BUFFERS ∧ (receive e m).mr = m.mr ∧
      (receive e m).mw < MOD_BUFFERS) ∧
    (m.mw ≠ m.mr → (ring_take m).mr = (m.mr + 1) % MOD_BUFFERS ∧
      (ring_take m).mr < MOD_BUFFERS) ∧
    (ring_take m).mw = m.mw ∧
    (∀ env fuel,
      (model_thread_cycle k dt c env fuel m).m.mw = m.mw ∧
      (model_thread_cycle k dt c env fuel m).m.mr
        = (if (model_thread_cycle k dt c env fuel m).took = true then (m.mr + 1) % MOD_BUFFERS
           else m.mr) ∧
      (model_thread_cycle k dt c env fuel m).m.mr < MOD_BUFFERS) := by
  obtain ⟨hw, hr⟩ := ring_run_indices k dt c m h
  have hmod : ∀ x, x % MOD_BUFFERS < MOD_BUFFERS := fun x => Nat.mod_lt _ (by decide)
  refine ⟨hw, hr, fun err p o => isr_store_indices err p o m hw, ?_, ?_, ring_take_mw m, ?_⟩
  · intro e
    rw [receive_mw, receive_mr, ring_next_of_lt _ hw]
    exact ⟨rfl, rfl, hmod _⟩
  · intro hne
    rw [ring_take_mr _ hne, ring_next_of_lt _ hr]
    exact ⟨rfl, hmod _⟩
  · intro env fuel
    obtain ⟨h1, h2⟩ := cycle_ring_indices k dt c env fuel m
    rw [ring_next_of_lt _ hr] at h2
    refine ⟨h1, h2, ?_⟩
    rw [h2]
    split_ifs
    · exact hmod _
    · exact hr

/-- The sample snooper after reset, one capture and one consumer iteration:
instance of `ring_indices_in_range`. -/
theorem ring_indices_in_range_witness :
    ring_run sample_masks sample_dt sample_crc
      (model_thread_cycle sample_masks sample_dt sample_crc (sample_env 0 0 uart_accepts_all) 1
        (receive (sample_event 12) (start_snooper sample_masks true
          (reset_snooper sample_booted)))).m ∧
    (model_thread_cycle sample_masks sample_dt sample_crc (sample_env 0 0 uart_accepts_all) 1
        (receive (sample_event 12) (start_snooper sample_masks true
          (reset_snooper sample_booted)))).m.mw < MOD_BUFFERS ∧
    (model_thread_cycle sample_masks sample_dt sample_crc (sample_env 0 0 uart_accepts_all) 1
        (receive (sample_event 12) (start_snooper sample_masks true
          (reset_snooper sample_booted)))).m.mr < MOD_BUFFERS :=
  ⟨ring_run.cycle _ _ _ (ring_run.isr _ _ (ring_run.dma _ _
      (ring_run.start true _ (ring_run.reset sample_booted)))),
   (ring_indices_in_range sample_masks sample_dt sample_crc _
      (ring_run.cycle _ _ _ (ring_run.isr _ _ (ring_run.dma _ _
        (ring_run.start true _ (ring_run.reset sample_booted)))))).1,
   (ring_indices_in_range sample_masks sample_dt sample_crc _
      (ring_run.cycle _ _ _ (ring_run.isr _ _ (ring_run.dma _ _
        (ring_run.start true _ (ring_run.reset sample_booted)))))).2.1⟩

end Snooper
